import Mathlib

/-!
# Poco::Data::Transaction — the scoped transaction guard

A shallow embedding of `Data/src/Transaction.cpp`.  The guard drives a
`Poco::Data::Session`, which is an external collaborator: it is taken as a
parameter (`Session σ`), so every theorem that quantifies over `S : Session σ`
holds for every session behaviour.  Each guard operation is a function on a
`World`, which holds the session's state, the chronological record of the calls
issued against the session, and the lines handed to the logger.  An operation
yields a `Res`: it either returns a value or raises an error, in both cases
together with the world it leaves behind.
-/

namespace Poco.Data

/-! ## Errors -/

/-- An exception raised by a call on the session.  The source tells two kinds
apart (`catch (Poco::Exception&)` against `catch (...)`): a `Poco::Exception`,
known by its `displayText()`, and anything else. -/
inductive SessionError where
  | poco (displayText : String)
  | foreign
  deriving DecidableEq, Repr

/-- An exception leaving a guard operation: the guard's own
`InvalidAccessException` (the only `throw` of the source, in `begin`), or an
exception that a session call raised and the guard let through. -/
inductive Error where
  | invalidAccess (msg : String)
  | session (e : SessionError)
  deriving DecidableEq, Repr

/-- Outcome of an operation on a world `W`: a returned value or a raised error,
each with the world left behind. -/
inductive Res (ε α W : Type) where
  | ok (a : α) (w : W)
  | raise (e : ε) (w : W)
  deriving DecidableEq, Repr

/-- World in which the operation ended, whether it returned or raised. -/
def Res.world {ε α W : Type} : Res ε α W → W
  | .ok _ w => w
  | .raise _ w => w

/-- Whether the operation returned normally. -/
def Res.returned {ε α W : Type} : Res ε α W → Bool
  | .ok _ _ => true
  | .raise _ _ => false

/-- Sequencing: the continuation runs only when the first operation returned. -/
def Res.andThen {ε α β W : Type} (r : Res ε α W) (f : α → W → Res ε β W) : Res ε β W :=
  match r with
  | .ok a w => f a w
  | .raise e w => .raise e w

/-- An error raised by the session leaves a guard operation unchanged. -/
def Res.liftSession {α W : Type} : Res SessionError α W → Res Error α W
  | .ok a w => .ok a w
  | .raise e w => .raise (.session e) w

/-! ## The session -/

/-- The state-changing calls the guard issues against its session. -/
inductive Call where
  | setFeature (name : String) (state : Bool)
  | begin
  | statement (sql : String)
  | commit
  | rollback
  deriving DecidableEq, Repr

/-- Modelled from the spec: the interface of the Session collaborator (class
`Poco::Data::Session` is not among the sources), as listed in the spec's
external interfaces: `hasFeature`, `getFeature`, `setFeature`, `isTransaction`,
`begin`, `commit`, `rollback` and the statement entry point (`run`, the
source's `_rSession << sql, now`).  The three queries are read-only; each other
call yields the error it raised, if any, and the session's state afterwards.
Nothing is assumed about what the calls do. -/
structure Session (σ : Type) where
  hasFeature : σ → String → Bool
  getFeature : σ → String → Bool
  isTransaction : σ → Bool
  setFeature : σ → String → Bool → Option SessionError × σ
  begin : σ → Option SessionError × σ
  run : σ → String → Option SessionError × σ
  commit : σ → Option SessionError × σ
  rollback : σ → Option SessionError × σ

/-- Dispatch of a recorded call to the session. -/
def Session.perform {σ : Type} (S : Session σ) (c : Call) (st : σ) : Option SessionError × σ :=
  match c with
  | .setFeature name state => S.setFeature st name state
  | .begin => S.begin st
  | .statement sql => S.run st sql
  | .commit => S.commit st
  | .rollback => S.rollback st

/-- One call issued against the session: the call, the session's state when it
was issued, and the error it raised (`none` when it returned normally). -/
structure Event (σ : Type) where
  call : Call
  pre : σ
  error : Option SessionError
  deriving DecidableEq, Repr

/-- A line handed to the logger. -/
inductive LogEntry where
  | debug (msg : String)
  | error (msg : String)
  | exception (displayText : String)
  deriving DecidableEq, Repr

/-- The session's state, the calls issued against it so far (oldest first) and
the logger's lines so far. -/
structure World (σ : Type) where
  session : σ
  trace : List (Event σ)
  log : List LogEntry
  deriving DecidableEq, Repr

/-- The world after a call has been issued: the session in the state the call
left it in, and the call recorded with the state it found and the error it
raised. -/
def World.after {σ : Type} (w : World σ) (S : Session σ) (c : Call) : World σ :=
  { session := (S.perform c w.session).2,
    trace := w.trace ++ [{ call := c, pre := w.session, error := (S.perform c w.session).1 }],
    log := w.log }

/-- Issue one call against the session and record it. -/
def Session.invoke {σ : Type} (S : Session σ) (c : Call) (w : World σ) :
    Res SessionError Unit (World σ) :=
  match (S.perform c w.session).1 with
  | none => .ok () (w.after S c)
  | some e => .raise e (w.after S c)

/-! ## The guard -/

/-- The guard's members besides the session reference: the auto-commit flag
snapshotted at construction, and whether a logger is attached. -/
structure Transaction where
  _autoCommit : Bool
  _pLogger : Bool
  deriving DecidableEq, Repr

/-- The logger call `if (_pLogger) _pLogger->...(entry)`. -/
def Transaction.logLine {σ : Type} (g : Transaction) (entry : LogEntry) (w : World σ) : World σ :=
  if g._pLogger then { session := w.session, trace := w.trace, log := w.log ++ [entry] } else w

/-- The member initialiser
`_autoCommit(_rSession.hasFeature("autoCommit") ? _rSession.getFeature("autoCommit") : false)`. -/
def Transaction.snapshot {σ : Type} (S : Session σ) (st : σ) : Bool :=
  if S.hasFeature st "autoCommit" then S.getFeature st "autoCommit" else false

/-- The method `Transaction::begin()`. -/
def Transaction.begin {σ : Type} (S : Session σ) (g : Transaction) (w : World σ) :
    Res Error Unit (World σ) :=
  if !S.isTransaction w.session then
    Res.liftSession
      ((if g._autoCommit then S.invoke (.setFeature "autoCommit" false) w else .ok () w).andThen
        fun _ w1 => S.invoke .begin w1)
  else
    .raise (.invalidAccess "Transaction in progress.") w

/-- The method `Transaction::commit()`. -/
def Transaction.commit {σ : Type} (S : Session σ) (g : Transaction) (w : World σ) :
    Res SessionError Unit (World σ) :=
  (S.invoke .commit (g.logLine (.debug "Committing transaction.") w)).andThen fun _ w1 =>
    if g._autoCommit then S.invoke (.setFeature "autoCommit" true) w1 else .ok () w1

/-- The method `Transaction::rollback()`. -/
def Transaction.rollback {σ : Type} (S : Session σ) (g : Transaction) (w : World σ) :
    Res SessionError Unit (World σ) :=
  (S.invoke .rollback (g.logLine (.debug "Rolling back transaction.") w)).andThen fun _ w1 =>
    if g._autoCommit then S.invoke (.setFeature "autoCommit" true) w1 else .ok () w1

/-- The method `Transaction::execute(const std::string& sql, bool doCommit)`. -/
def Transaction.execute {σ : Type} (S : Session σ) (g : Transaction) (sql : String)
    (doCommit : Bool) (w : World σ) : Res SessionError Unit (World σ) :=
  (if !S.isTransaction w.session then S.invoke .begin w else .ok () w).andThen fun _ w1 =>
    (S.invoke (.statement sql) w1).andThen fun _ w2 =>
      if doCommit then g.commit S w2 else .ok () w2

/-- The loop of the batch `execute`:
`for (; it != end; ++it) execute(*it, it + 1 == end ? true : false);`. -/
def Transaction.executeLoop {σ : Type} (S : Session σ) (g : Transaction) :
    List String → World σ → Res SessionError Unit (World σ)
  | [], w => .ok () w
  | sql :: rest, w =>
    (g.execute S sql rest.isEmpty w).andThen fun _ w1 => Transaction.executeLoop S g rest w1

/-- The method `Transaction::execute(const std::vector<std::string>& sql, std::string* info)`.
The slot `info` is `none` for a null pointer and `some v` for a string holding
`v`; the second component of the result is the slot after the call.  Only a
`Poco::Exception` is caught. -/
def Transaction.executeInfo {σ : Type} (S : Session σ) (g : Transaction) (sql : List String)
    (info : Option String) (w : World σ) : Res SessionError Bool (World σ) × Option String :=
  match g.executeLoop S sql w with
  | .ok _ w1 => (.ok true w1, info)
  | .raise .foreign w1 => (.raise .foreign w1, info)
  | .raise (.poco text) w1 =>
    let info1 := info.map fun _ => text
    match g.rollback S (g.logLine (.exception text) w1) with
    | .ok _ w2 => (.ok false w2, info1)
    | .raise e w2 => (.raise e w2, info1)

/-- The method `Transaction::execute(const std::vector<std::string>& sql)`:
`return execute(sql, nullptr);`. -/
def Transaction.executeList {σ : Type} (S : Session σ) (g : Transaction) (sql : List String)
    (w : World σ) : Res SessionError Bool (World σ) :=
  (g.executeInfo S sql none w).1

/-- The destructor `Transaction::~Transaction()`.  Both handlers of the inner
`try` are kept.  The outer `catch (...)` guards `isTransaction()` and the logger
calls, which cannot raise here, so it has no path of its own. -/
def Transaction.destroy {σ : Type} (S : Session σ) (g : Transaction) (w : World σ) :
    Res SessionError Unit (World σ) :=
  if S.isTransaction w.session then
    match S.invoke .rollback (g.logLine (.debug "Rolling back transaction.") w) with
    | .ok _ w1 => .ok () w1
    | .raise (.poco text) w1 =>
      .ok () (g.logLine (.error ("Error while rolling back database transaction: " ++ text)) w1)
    | .raise .foreign w1 =>
      .ok () (g.logLine (.error "Error while rolling back database transaction.") w1)
  else
    .ok () w

/-- The constructor `Transaction(Session& rSession, Logger* pLogger)`: snapshot,
then `begin()`. -/
def Transaction.create {σ : Type} (S : Session σ) (pLogger : Bool) (w : World σ) :
    Res Error Transaction (World σ) :=
  let g : Transaction := { _autoCommit := Transaction.snapshot S w.session, _pLogger := pLogger }
  (g.begin S w).andThen fun _ w1 => .ok g w1

/-- The constructor `Transaction(Session& rSession, bool start)`: snapshot, no
logger, then `if (start) begin();`. -/
def Transaction.createDeferred {σ : Type} (S : Session σ) (start : Bool) (w : World σ) :
    Res Error Transaction (World σ) :=
  let g : Transaction := { _autoCommit := Transaction.snapshot S w.session, _pLogger := false }
  if start then (g.begin S w).andThen fun _ w1 => .ok g w1 else .ok g w

/-! ## Sequences of guard operations -/

/-- The operations a caller can apply to a guard bound to one session. -/
inductive Op where
  | create (pLogger : Bool)
  | createDeferred (start : Bool)
  | begin
  | execute (sql : String) (doCommit : Bool)
  | executeList (sql : List String)
  | executeInfo (sql : List String) (info : Option String)
  | commit
  | rollback
  | destroy
  deriving DecidableEq, Repr

/-- One operation applied by the caller.  A constructor that returns yields the
new guard; an operation that raises leaves the caller with the guard it had and
the world the operation left behind. -/
def Op.apply {σ : Type} (S : Session σ) (op : Op) (g : Transaction) (w : World σ) :
    Transaction × World σ :=
  match op with
  | .create pLogger =>
    match Transaction.create S pLogger w with
    | .ok g1 w1 => (g1, w1)
    | .raise _ w1 => (g, w1)
  | .createDeferred start =>
    match Transaction.createDeferred S start w with
    | .ok g1 w1 => (g1, w1)
    | .raise _ w1 => (g, w1)
  | .begin => (g, (g.begin S w).world)
  | .execute sql doCommit => (g, (g.execute S sql doCommit w).world)
  | .executeList sql => (g, (g.executeList S sql w).world)
  | .executeInfo sql info => (g, (g.executeInfo S sql info w).1.world)
  | .commit => (g, (g.commit S w).world)
  | .rollback => (g, (g.rollback S w).world)
  | .destroy => (g, (g.destroy S w).world)

/-- A sequence of operations applied one after the other. -/
def runOps {σ : Type} (S : Session σ) : List Op → Transaction → World σ → Transaction × World σ
  | [], g, w => (g, w)
  | op :: ops, g, w => runOps S ops (op.apply S g w).1 (op.apply S g w).2

/-! ## Reading a trace -/

/-- The events recorded between world `w` and a later world `w1`. -/
def World.since {σ : Type} (w1 w : World σ) : List (Event σ) :=
  w1.trace.drop w.trace.length

/-- Statement, commit and rollback calls: the calls that act on the data. -/
def Call.isWork : Call → Bool
  | .statement _ => true
  | .commit => true
  | .rollback => true
  | _ => false

/-- Calls on the feature store. -/
def Call.isSetFeature : Call → Bool
  | .setFeature _ _ => true
  | _ => false

/-- The calls of a list of events, in order. -/
def calls {σ : Type} (evs : List (Event σ)) : List Call :=
  evs.map fun ev => ev.call

/-- The statement, commit and rollback calls of a list of events, in order. -/
def work {σ : Type} (evs : List (Event σ)) : List Call :=
  (calls evs).filter Call.isWork

/-- Modelled from the spec: what the spec takes for granted of the Session
collaborator (class `Poco::Data::Session` is not among the sources).  A begin
that returns opens the transaction, a commit or rollback that returns closes
it, the feature store accepts a value for a feature the session has, and the
feature store and the transaction boundary do not touch each other. -/
structure Session.Lawful {σ : Type} (S : Session σ) : Prop where
  begin_opens : ∀ st, (S.begin st).1 = none → S.isTransaction (S.begin st).2 = true
  begin_keeps : ∀ st name, S.hasFeature (S.begin st).2 name = S.hasFeature st name ∧
    S.getFeature (S.begin st).2 name = S.getFeature st name
  commit_closes : ∀ st, (S.commit st).1 = none → S.isTransaction (S.commit st).2 = false
  commit_keeps : ∀ st name, S.hasFeature (S.commit st).2 name = S.hasFeature st name ∧
    S.getFeature (S.commit st).2 name = S.getFeature st name
  rollback_closes : ∀ st, (S.rollback st).1 = none → S.isTransaction (S.rollback st).2 = false
  rollback_keeps : ∀ st name, S.hasFeature (S.rollback st).2 name = S.hasFeature st name ∧
    S.getFeature (S.rollback st).2 name = S.getFeature st name
  setFeature_sets : ∀ st name v, S.hasFeature st name = true →
    (S.setFeature st name v).1 = none ∧ S.hasFeature (S.setFeature st name v).2 name = true ∧
      S.getFeature (S.setFeature st name v).2 name = v
  setFeature_keeps : ∀ st name v,
    S.isTransaction (S.setFeature st name v).2 = S.isTransaction st

/-! ## A reference session -/

/-- State of the reference session: whether a transaction is open, and the
feature store (the first entry for a name is its value). -/
structure RefState where
  active : Bool
  features : List (String × Bool)
  deriving DecidableEq, Repr

/-- The calls the reference session is set up to fail, with the error raised. -/
structure Faults where
  onBegin : Option SessionError
  onCommit : Option SessionError
  onRollback : Option SessionError
  onStatement : List (String × SessionError)
  deriving DecidableEq, Repr

/-- No call is set up to fail. -/
def Faults.none : Faults :=
  { onBegin := Option.none, onCommit := Option.none, onRollback := Option.none, onStatement := [] }

/-- Modelled from the spec: a concrete Session (class `Poco::Data::Session` is
not among the sources): one flat transaction boundary and a boolean feature
store.  A call set up to fail raises and leaves the state as it was.  Otherwise
`begin` opens the transaction and is rejected while one is open, `commit` closes
it and is rejected with nothing pending, `rollback` closes it, a statement
leaves boundary and features alone, and `setFeature` stores the value. -/
def refSession (f : Faults) : Session RefState where
  hasFeature st name := (st.features.lookup name).isSome
  getFeature st name := (st.features.lookup name).getD false
  isTransaction st := st.active
  setFeature st name v := (none, { active := st.active, features := (name, v) :: st.features })
  begin st :=
    match f.onBegin with
    | some e => (some e, st)
    | none =>
      if st.active then (some (.poco "Transaction already in progress."), st)
      else (none, { active := true, features := st.features })
  run st sql :=
    match f.onStatement.lookup sql with
    | some e => (some e, st)
    | none => (none, st)
  commit st :=
    match f.onCommit with
    | some e => (some e, st)
    | none =>
      if st.active then (none, { active := false, features := st.features })
      else (some (.poco "No transaction to commit."), st)
  rollback st :=
    match f.onRollback with
    | some e => (some e, st)
    | none => (none, { active := false, features := st.features })

/-- A world with nothing recorded yet. -/
def World.start {σ : Type} (st : σ) : World σ :=
  { session := st, trace := [], log := [] }

/-- The reference session with no transaction open and auto-commit switched on. -/
def idleAuto : RefState :=
  { active := false, features := [("autoCommit", true)] }

/-- The reference session with no transaction open and no auto-commit feature. -/
def idlePlain : RefState :=
  { active := false, features := [] }

/-- The reference session set up to fail the statement `s2` with a
`Poco::Exception`. -/
def secondStatementFails : Faults :=
  { onBegin := none, onCommit := none, onRollback := none,
    onStatement := [("s2", .poco "duplicate key")] }

/-- The reference session set up to fail the statement `s` and the rollback,
both with a `Poco::Exception`. -/
def statementAndRollbackFail : Faults :=
  { onBegin := none, onCommit := none, onRollback := some (.poco "connection lost"),
    onStatement := [("s", .poco "duplicate key")] }

/-- The reference session set up to fail the statement `s` with an exception
that is not a `Poco::Exception`. -/
def statementFailsForeign : Faults :=
  { onBegin := none, onCommit := none, onRollback := none,
    onStatement := [("s", .foreign)] }

/-- The lines the destructor hands to the logger for a rollback that raised
`err` (nothing beyond the debug line when it returned). -/
def destroyLines : Option SessionError → List LogEntry
  | none => [.debug "Rolling back transaction."]
  | some (.poco text) =>
    [.debug "Rolling back transaction.",
      .error ("Error while rolling back database transaction: " ++ text)]
  | some .foreign =>
    [.debug "Rolling back transaction.", .error "Error while rolling back database transaction."]

/-- The two constructors among the operations: they make a new guard, with a
flag of its own. -/
def Op.isConstructor : Op → Bool
  | .create _ => true
  | .createDeferred _ => true
  | _ => false

/-- The reference session set up to fail every commit with a `Poco::Exception`. -/
def commitFails : Faults :=
  { onBegin := none, onCommit := some (.poco "disk full"), onRollback := none,
    onStatement := [] }

/-- The reference session set up to fail every begin with a `Poco::Exception`. -/
def beginFails : Faults :=
  { onBegin := some (.poco "connection lost"), onCommit := none, onRollback := none,
    onStatement := [] }

/-- The reference session set up to fail the statement `s` with a
`Poco::Exception`. -/
def statementFails : Faults :=
  { onBegin := none, onCommit := none, onRollback := none,
    onStatement := [("s", .poco "duplicate key")] }

/-- The reference session with a transaction open and auto-commit switched off,
as a guard that began the transaction leaves it. -/
def activeAuto : RefState :=
  { active := true, features := [("autoCommit", false), ("autoCommit", true)] }

/-- The session with its commit and rollback exchanged. -/
def Session.exchanged {σ : Type} (S : Session σ) : Session σ :=
  { hasFeature := S.hasFeature, getFeature := S.getFeature, isTransaction := S.isTransaction,
    setFeature := S.setFeature, begin := S.begin, run := S.run,
    commit := S.rollback, rollback := S.commit }

/-- A call with commit and rollback exchanged. -/
def Call.exchanged : Call → Call
  | .commit => .rollback
  | .rollback => .commit
  | c => c

/-- World `w1` is reached from world `w` without a call to the feature store:
the calls recorded in between are not `setFeature` calls, and whatever holds of
the session's state and is kept by every other call still holds. -/
def World.ReachedQuietly {σ : Type} (S : Session σ) (w w1 : World σ) : Prop :=
  (∃ evs, w1.trace = w.trace ++ evs ∧ ∀ ev ∈ evs, ev.call.isSetFeature = false) ∧
  ∀ P : σ → Prop, (∀ c st, c.isSetFeature = false → P st → P (S.perform c st).2) →
    P w.session → P w1.session

theorem since_append {σ : Type} (w w1 : World σ) (evs : List (Event σ))
    (h : w1.trace = w.trace ++ evs) : w1.since w = evs := by
  simp [World.since, h]

theorem invoke_none {σ : Type} (S : Session σ) (c : Call) (w : World σ)
    (h : (S.perform c w.session).1 = none) : S.invoke c w = .ok () (w.after S c) := by
  simp [Session.invoke, h]

theorem invoke_some {σ : Type} (S : Session σ) (c : Call) (w : World σ) (e : SessionError)
    (h : (S.perform c w.session).1 = some e) : S.invoke c w = .raise e (w.after S c) := by
  simp [Session.invoke, h]

/-! ## begin -/

/-- C2: while the session reports an active transaction, `begin()` raises the
guard's InvalidAccessException and leaves the world exactly as it was (no call
is issued, so neither the transaction nor any feature changes); when the
session reports none, `begin()` never raises the guard's InvalidAccessException. -/
theorem begin_rejected_iff_active {σ : Type} (S : Session σ) (g : Transaction) (w : World σ) :
    (S.isTransaction w.session = true →
      g.begin S w = .raise (.invalidAccess "Transaction in progress.") w) ∧
    (S.isTransaction w.session = false →
      ∀ msg w1, g.begin S w ≠ .raise (.invalidAccess msg) w1) := by
  constructor
  · intro h
    simp [Transaction.begin, h]
  · intro h msg w1
    simp only [Transaction.begin, h, Bool.not_false, if_true]
    cases (if g._autoCommit then S.invoke (.setFeature "autoCommit" false) w
      else Res.ok () w).andThen fun _ w1 => S.invoke .begin w1 <;>
      simp [Res.liftSession]

/-- Witness for C2: `begin()` on the reference session with a transaction open,
and with none. -/
theorem begin_rejected_iff_active_witness :
    (Transaction.mk true false).begin (refSession Faults.none)
        (World.start { active := true, features := [("autoCommit", true)] }) =
      .raise (.invalidAccess "Transaction in progress.")
        (World.start { active := true, features := [("autoCommit", true)] }) ∧
    ∀ msg w1, (Transaction.mk true false).begin (refSession Faults.none)
        (World.start idleAuto) ≠ .raise (.invalidAccess msg) w1 :=
  ⟨(begin_rejected_iff_active (refSession Faults.none) (Transaction.mk true false)
      (World.start { active := true, features := [("autoCommit", true)] })).1 rfl,
    (begin_rejected_iff_active (refSession Faults.none) (Transaction.mk true false)
      (World.start idleAuto)).2 rfl⟩

/-! ## The destructor -/

/-- C6: the destructor always returns.  When the session reports an active
transaction it issues exactly one call, a rollback, and whatever that rollback
raises goes to the logger only (when one is attached); when the session reports
none, the world is left exactly as it was. -/
theorem destroy_never_raises {σ : Type} (S : Session σ) (g : Transaction) (w : World σ) :
    ∃ w1, g.destroy S w = .ok () w1 ∧
      if S.isTransaction w.session then
        w1.session = (S.rollback w.session).2 ∧
        w1.trace = w.trace ++
          [{ call := .rollback, pre := w.session, error := (S.rollback w.session).1 }] ∧
        w1.log = w.log ++ (if g._pLogger then destroyLines (S.rollback w.session).1 else [])
      else w1 = w := by
  refine ⟨(g.destroy S w).world, ?_, ?_⟩ <;>
    by_cases h : S.isTransaction w.session = true <;>
    cases hl : g._pLogger <;>
    rcases hr : (S.rollback w.session).1 with _ | (_ | _) <;>
    simp [Transaction.destroy, Session.invoke, World.after, Transaction.logLine,
      Session.perform, Res.world, destroyLines, h, hl, hr]

/-! ## Single operations -/

@[simp] theorem logLine_session {σ : Type} (g : Transaction) (entry : LogEntry) (w : World σ) :
    (g.logLine entry w).session = w.session := by
  cases hl : g._pLogger <;> simp [Transaction.logLine, hl]

@[simp] theorem logLine_trace {σ : Type} (g : Transaction) (entry : LogEntry) (w : World σ) :
    (g.logLine entry w).trace = w.trace := by
  cases hl : g._pLogger <;> simp [Transaction.logLine, hl]

@[simp] theorem after_session {σ : Type} (S : Session σ) (c : Call) (w : World σ) :
    (w.after S c).session = (S.perform c w.session).2 := rfl

@[simp] theorem after_trace {σ : Type} (S : Session σ) (c : Call) (w : World σ) :
    (w.after S c).trace =
      w.trace ++ [{ call := c, pre := w.session, error := (S.perform c w.session).1 }] := rfl

@[simp] theorem after_log {σ : Type} (S : Session σ) (c : Call) (w : World σ) :
    (w.after S c).log = w.log := rfl

@[simp] theorem andThen_ok {ε α β W : Type} (a : α) (w : W) (f : α → W → Res ε β W) :
    (Res.ok a w : Res ε α W).andThen f = f a w := rfl

@[simp] theorem andThen_raise {ε α β W : Type} (e : ε) (w : W) (f : α → W → Res ε β W) :
    (Res.raise e w : Res ε α W).andThen f = .raise e w := rfl

/-- What `commit()` issues: the session commit, followed by the restoring
`setFeature` only when the commit returned and the flag is set.  It returns
when every call returned and otherwise raises the error of the failed call. -/
theorem commit_spec {σ : Type} (S : Session σ) (g : Transaction) (w : World σ) :
    ∃ evs, (g.commit S w).world.trace = w.trace ++ evs ∧
      work evs = [.commit] ∧
      (∀ ev ∈ evs, (ev.call = .commit ∨ ev.call = .setFeature "autoCommit" true) ∧
        ev.error = (S.perform ev.call ev.pre).1) ∧
      match g.commit S w with
      | .ok _ _ => ∀ ev ∈ evs, ev.error = none
      | .raise e _ => ∃ ev ∈ evs, ev.error = some e := by
  unfold Transaction.commit
  rcases hc : (S.perform .commit w.session).1 with _ | e
  · rw [invoke_none S .commit _ (by simpa using hc)]
    rw [andThen_ok]
    cases ha : g._autoCommit
    · exact ⟨[⟨.commit, w.session, none⟩], by
        simp [hc, Res.world, work, calls, Call.isWork]⟩
    · simp only [if_true]
      rcases hf : (S.perform (.setFeature "autoCommit" true)
        ((g.logLine (.debug "Committing transaction.") w).after S .commit).session).1 with _ | e
      · rw [invoke_none _ _ _ hf]
        simp only [after_session, logLine_session] at hf
        exact ⟨[⟨.commit, w.session, none⟩,
          ⟨.setFeature "autoCommit" true, (S.perform .commit w.session).2, none⟩], by
          simp [hc, hf, Res.world, work, calls, Call.isWork]⟩
      · rw [invoke_some _ _ _ e hf]
        simp only [after_session, logLine_session] at hf
        exact ⟨[⟨.commit, w.session, none⟩,
          ⟨.setFeature "autoCommit" true, (S.perform .commit w.session).2, some e⟩], by
          simp [hc, hf, Res.world, work, calls, Call.isWork]⟩
  · rw [invoke_some S .commit _ e (by simpa using hc)]
    exact ⟨[⟨.commit, w.session, some e⟩], by
      simp [hc, Res.world, work, calls, Call.isWork]⟩

/-- What `rollback()` issues: the session rollback, followed by the restoring
`setFeature` only when the rollback returned and the flag is set. -/
theorem rollback_spec {σ : Type} (S : Session σ) (g : Transaction) (w : World σ) :
    ∃ evs, (g.rollback S w).world.trace = w.trace ++ evs ∧
      work evs = [.rollback] ∧
      (∀ ev ∈ evs, (ev.call = .rollback ∨ ev.call = .setFeature "autoCommit" true) ∧
        ev.error = (S.perform ev.call ev.pre).1) ∧
      match g.rollback S w with
      | .ok _ _ => ∀ ev ∈ evs, ev.error = none
      | .raise e _ => ∃ ev ∈ evs, ev.error = some e := by
  unfold Transaction.rollback
  rcases hc : (S.perform .rollback w.session).1 with _ | e
  · rw [invoke_none S .rollback _ (by simpa using hc)]
    rw [andThen_ok]
    cases ha : g._autoCommit
    · exact ⟨[⟨.rollback, w.session, none⟩], by
        simp [hc, Res.world, work, calls, Call.isWork]⟩
    · simp only [if_true]
      rcases hf : (S.perform (.setFeature "autoCommit" true)
        ((g.logLine (.debug "Rolling back transaction.") w).after S .rollback).session).1
        with _ | e
      · rw [invoke_none _ _ _ hf]
        simp only [after_session, logLine_session] at hf
        exact ⟨[⟨.rollback, w.session, none⟩,
          ⟨.setFeature "autoCommit" true, (S.perform .rollback w.session).2, none⟩], by
          simp [hc, hf, Res.world, work, calls, Call.isWork]⟩
      · rw [invoke_some _ _ _ e hf]
        simp only [after_session, logLine_session] at hf
        exact ⟨[⟨.rollback, w.session, none⟩,
          ⟨.setFeature "autoCommit" true, (S.perform .rollback w.session).2, some e⟩], by
          simp [hc, hf, Res.world, work, calls, Call.isWork]⟩
  · rw [invoke_some S .rollback _ e (by simpa using hc)]
    exact ⟨[⟨.rollback, w.session, some e⟩], by
      simp [hc, Res.world, work, calls, Call.isWork]⟩

theorem work_cons {σ : Type} (ev : Event σ) (evs : List (Event σ)) :
    work (ev :: evs) = if ev.call.isWork then ev.call :: work evs else work evs := by
  simp [work, calls, List.filter_cons]

theorem work_append {σ : Type} (a b : List (Event σ)) : work (a ++ b) = work a ++ work b := by
  simp [work, calls]

theorem mem_work {σ : Type} (evs : List (Event σ)) (ev : Event σ) (h : ev ∈ evs)
    (hw : ev.call.isWork = true) : ev.call ∈ work evs := by
  simp only [work, calls, List.mem_filter, List.mem_map]
  exact ⟨⟨ev, h, rfl⟩, hw⟩

/-- The statement of the single-statement `execute` and the commit that may
follow it. -/
theorem statement_then_commit_spec {σ : Type} (S : Session σ) (g : Transaction) (sql : String)
    (c : Bool) (w : World σ) :
    ∃ evs, (((S.invoke (.statement sql) w).andThen fun _ w2 =>
          if c then g.commit S w2 else .ok () w2)).world.trace = w.trace ++ evs ∧
      (∀ ev ∈ evs, ev.call ≠ .begin ∧ ev.error = (S.perform ev.call ev.pre).1) ∧
      match ((S.invoke (.statement sql) w).andThen fun _ w2 =>
          if c then g.commit S w2 else .ok () w2) with
      | .ok _ _ => (∀ ev ∈ evs, ev.error = none) ∧
          work evs = .statement sql :: (if c then [.commit] else [])
      | .raise e _ => (∃ ev ∈ evs, ev.error = some e) ∧
          (work evs = [.statement sql] ∨ (c = true ∧ work evs = [.statement sql, .commit])) := by
  rcases hs : (S.perform (.statement sql) w.session).1 with _ | e
  · rw [invoke_none _ _ _ hs, andThen_ok]
    cases c
    · exact ⟨[⟨.statement sql, w.session, none⟩], by
        simp [hs, Res.world, work, calls, Call.isWork]⟩
    · obtain ⟨evs, htr, hwork, hnb, hm⟩ := commit_spec S g (w.after S (.statement sql))
      refine ⟨⟨.statement sql, w.session, none⟩ :: evs, ?_, ?_, ?_⟩
      · simpa [hs] using htr
      · intro ev hev
        rcases List.mem_cons.1 hev with rfl | hev
        · simp [hs]
        · refine ⟨?_, (hnb ev hev).2⟩
          rcases (hnb ev hev).1 with h | h <;> simp [h]
      · simp only [if_true]
        generalize g.commit S (w.after S (.statement sql)) = r at hm
        cases r with
        | ok a w1 =>
          refine ⟨?_, by simp [work_cons, Call.isWork, hwork]⟩
          intro ev hev
          rcases List.mem_cons.1 hev with rfl | hev
          · rfl
          · exact hm ev hev
        | raise e w1 =>
          obtain ⟨ev, hev, he⟩ := hm
          exact ⟨⟨ev, List.mem_cons_of_mem _ hev, he⟩,
            Or.inr ⟨trivial, by simp [work_cons, Call.isWork, hwork]⟩⟩
  · rw [invoke_some _ _ _ e hs]
    exact ⟨[⟨.statement sql, w.session, some e⟩], by
      simp [hs, Res.world, work, calls, Call.isWork]⟩

/-- What the single-statement `execute` issues: a session begin exactly when
the session reports no transaction, the statement, and `commit()` when asked
for.  It returns when every call returned and otherwise raises the error of
the failed call. -/
theorem execute_spec {σ : Type} (S : Session σ) (g : Transaction) (sql : String) (c : Bool)
    (w : World σ) :
    ∃ evs, (g.execute S sql c w).world.trace = w.trace ++ evs ∧
      (∀ ev ∈ evs, (ev.call = .begin → S.isTransaction ev.pre = false) ∧
        ev.error = (S.perform ev.call ev.pre).1) ∧
      match g.execute S sql c w with
      | .ok _ _ => (∀ ev ∈ evs, ev.error = none) ∧
          work evs = .statement sql :: (if c then [.commit] else [])
      | .raise e _ => (∃ ev ∈ evs, ev.error = some e) ∧
          (work evs = [] ∨ work evs = [.statement sql] ∨
            (c = true ∧ work evs = [.statement sql, .commit])) := by
  unfold Transaction.execute
  by_cases ht : S.isTransaction w.session = true
  · obtain ⟨evs, htr, hnb, hm⟩ := statement_then_commit_spec S g sql c w
    simp only [ht, Bool.not_true, Bool.false_eq_true, if_false, andThen_ok]
    refine ⟨evs, htr, fun ev hev => ⟨fun hb => absurd hb (hnb ev hev).1, (hnb ev hev).2⟩, ?_⟩
    generalize ((S.invoke (.statement sql) w).andThen fun _ w2 =>
      if c then g.commit S w2 else .ok () w2) = r at hm
    cases r with
    | ok a w1 => exact hm
    | raise e w1 => exact ⟨hm.1, Or.inr hm.2⟩
  · have hf : S.isTransaction w.session = false := by simpa using ht
    simp only [hf, Bool.not_false, if_true]
    rcases hb : (S.perform .begin w.session).1 with _ | e
    · rw [invoke_none _ _ _ hb, andThen_ok]
      obtain ⟨evs, htr, hnb, hm⟩ := statement_then_commit_spec S g sql c (w.after S .begin)
      refine ⟨⟨.begin, w.session, none⟩ :: evs, ?_, ?_, ?_⟩
      · simpa [hb] using htr
      · intro ev hev
        rcases List.mem_cons.1 hev with rfl | hev
        · exact ⟨fun _ => hf, hb.symm⟩
        · exact ⟨fun hcall => absurd hcall (hnb ev hev).1, (hnb ev hev).2⟩
      · generalize ((S.invoke (.statement sql) (w.after S .begin)).andThen fun _ w2 =>
          if c then g.commit S w2 else .ok () w2) = r at hm
        cases r with
        | ok a w1 =>
          refine ⟨?_, by simpa [work_cons, Call.isWork] using hm.2⟩
          intro ev hev
          rcases List.mem_cons.1 hev with rfl | hev
          · rfl
          · exact hm.1 ev hev
        | raise e w1 =>
          obtain ⟨⟨ev, hev, he⟩, hw⟩ := hm
          exact ⟨⟨ev, List.mem_cons_of_mem _ hev, he⟩,
            Or.inr (by simpa [work_cons, Call.isWork] using hw)⟩
    · rw [invoke_some _ _ _ e hb]
      exact ⟨[⟨.begin, w.session, some e⟩], by
        simp [hb, hf, Res.world, work, calls, Call.isWork]⟩

/-- What the loop of the batch `execute` issues.  A session begin is issued
only when the session reports no transaction, no rollback is issued, and the
loop returns exactly when every call returned: then every statement ran once,
in order, and the one commit followed the last statement. -/
theorem executeLoop_spec {σ : Type} (S : Session σ) (g : Transaction) (sql : List String) :
    ∀ w : World σ, ∃ evs, (g.executeLoop S sql w).world.trace = w.trace ++ evs ∧
      (∀ ev ∈ evs, (ev.call = .begin → S.isTransaction ev.pre = false) ∧
        ev.error = (S.perform ev.call ev.pre).1) ∧
      (∀ ev ∈ evs, ev.call ≠ .rollback) ∧
      match g.executeLoop S sql w with
      | .ok _ _ => (∀ ev ∈ evs, ev.error = none) ∧
          work evs = sql.map Call.statement ++ (if sql.isEmpty then [] else [.commit])
      | .raise e _ => ∃ ev ∈ evs, ev.error = some e := by
  induction sql with
  | nil =>
    intro w
    exact ⟨[], by simp [Transaction.executeLoop, Res.world, work, calls]⟩
  | cons s rest ih =>
    intro w
    obtain ⟨evs1, htr1, hb1, hm1⟩ := execute_spec S g s rest.isEmpty w
    have hnr1 : ∀ r : Res SessionError Unit (World σ), r = g.execute S s rest.isEmpty w →
        ∀ ev ∈ evs1, ev.call ≠ .rollback := by
      intro r hr ev hev hcall
      have hmem := mem_work evs1 ev hev (by simp [hcall, Call.isWork])
      rw [hcall] at hmem
      rw [← hr] at hm1
      cases r with
      | ok a w1 =>
        rw [hm1.2] at hmem
        cases hrest : rest.isEmpty <;> simp [hrest] at hmem
      | raise e w1 =>
        rcases hm1.2 with h | h | ⟨_, h⟩ <;> rw [h] at hmem <;> simp at hmem
    have hnr := hnr1 _ rfl
    simp only [Transaction.executeLoop]
    generalize g.execute S s rest.isEmpty w = r at htr1 hm1
    cases r with
    | raise e w1 =>
      exact ⟨evs1, htr1, hb1, hnr, hm1.1⟩
    | ok a w1 =>
      obtain ⟨evs2, htr2, hb2, hnr2, hm2⟩ := ih w1
      rw [andThen_ok]
      refine ⟨evs1 ++ evs2, ?_, ?_, ?_, ?_⟩
      · rw [htr2]
        simp only [Res.world] at htr1
        rw [htr1, List.append_assoc]
      · intro ev hev
        rcases List.mem_append.1 hev with h | h
        · exact hb1 ev h
        · exact hb2 ev h
      · intro ev hev
        rcases List.mem_append.1 hev with h | h
        · exact hnr ev h
        · exact hnr2 ev h
      · generalize g.executeLoop S rest w1 = r2 at hm2
        cases r2 with
        | raise e w2 =>
          obtain ⟨ev, hev, he⟩ := hm2
          exact ⟨ev, List.mem_append_right _ hev, he⟩
        | ok a2 w2 =>
          refine ⟨?_, ?_⟩
          · intro ev hev
            rcases List.mem_append.1 hev with h | h
            · exact hm1.1 ev h
            · exact hm2.1 ev h
          · rw [work_append, hm1.2, hm2.2]
            cases rest <;> simp

/-- What the batch `execute` issues and how it ends.  It returns true exactly
when the loop returned; it returns false when a call of the loop raised a
`Poco::Exception` and the `rollback()` that follows returned; it raises when a
call of the loop raised something else, or when that `rollback()` raised. -/
theorem executeInfo_spec {σ : Type} (S : Session σ) (g : Transaction) (sql : List String)
    (info : Option String) (w : World σ) :
    ∃ evs, (g.executeInfo S sql info w).1.world.trace = w.trace ++ evs ∧
      (∀ ev ∈ evs, (ev.call = .begin → S.isTransaction ev.pre = false) ∧
        ev.error = (S.perform ev.call ev.pre).1) ∧
      (∀ w1 slot, g.executeInfo S sql info w = (.ok true w1, slot) →
        slot = info ∧ (∀ ev ∈ evs, ev.error = none) ∧
          work evs = sql.map Call.statement ++ (if sql.isEmpty then [] else [.commit])) ∧
      (∀ w1 slot, g.executeInfo S sql info w = (.ok false w1, slot) →
        ∃ text evs1 evs2, slot = info.map (fun _ => text) ∧ evs = evs1 ++ evs2 ∧
          (∃ ev ∈ evs1, ev.error = some (.poco text)) ∧ (∀ ev ∈ evs1, ev.call ≠ .rollback) ∧
          work evs2 = [.rollback] ∧ ∀ ev ∈ evs2, ev.error = none) ∧
      (∀ e w1 slot, g.executeInfo S sql info w = (.raise e w1, slot) →
        ∃ ev ∈ evs, ev.error = some e ∧
          (e = .foreign ∨ ev.call = .rollback ∨ ev.call = .setFeature "autoCommit" true)) := by
  obtain ⟨evs1, htr1, hb1, hnr1, hm1⟩ := executeLoop_spec S g sql w
  unfold Transaction.executeInfo
  generalize g.executeLoop S sql w = r at htr1 hm1
  cases r with
  | ok a w1 =>
    refine ⟨evs1, htr1, hb1, ?_, ?_, ?_⟩
    · intro w2 slot h
      simp only [Prod.mk.injEq] at h
      exact ⟨h.2.symm, hm1.1, hm1.2⟩
    · intro w2 slot h
      simp at h
    · intro e w2 slot h
      simp at h
  | raise e w1 =>
    cases e with
    | foreign =>
      refine ⟨evs1, htr1, hb1, ?_, ?_, ?_⟩
      · intro w2 slot h
        simp at h
      · intro w2 slot h
        simp at h
      · intro e w2 slot h
        simp only [Prod.mk.injEq, Res.raise.injEq] at h
        obtain ⟨ev, hev, he⟩ := hm1
        exact ⟨ev, hev, h.1.1 ▸ he, Or.inl h.1.1.symm⟩
    | poco text =>
      obtain ⟨evs2, htr2, hw2, hc2, hm2⟩ :=
        rollback_spec S g (g.logLine (.exception text) w1)
      simp only
      generalize g.rollback S (g.logLine (.exception text) w1) = r2 at htr2 hm2
      have hall : ∀ ev ∈ evs1 ++ evs2, (ev.call = .begin → S.isTransaction ev.pre = false) ∧
          ev.error = (S.perform ev.call ev.pre).1 := by
        intro ev hev
        rcases List.mem_append.1 hev with h | h
        · exact hb1 ev h
        · refine ⟨fun hcall => ?_, (hc2 ev h).2⟩
          rcases (hc2 ev h).1 with h1 | h1 <;> rw [h1] at hcall <;> cases hcall
      simp only [Res.world] at htr1
      cases r2 with
      | ok a2 w2 =>
        refine ⟨evs1 ++ evs2, ?_, hall, ?_, ?_, ?_⟩
        · simp only [Res.world] at htr2 ⊢
          rw [htr2, logLine_trace, htr1, List.append_assoc]
        · intro w3 slot h
          simp at h
        · intro w3 slot h
          simp only [Prod.mk.injEq] at h
          exact ⟨text, evs1, evs2, h.2.symm, rfl, hm1, hnr1, hw2, hm2⟩
        · intro e w3 slot h
          simp at h
      | raise e2 w2 =>
        refine ⟨evs1 ++ evs2, ?_, hall, ?_, ?_, ?_⟩
        · simp only [Res.world] at htr2 ⊢
          rw [htr2, logLine_trace, htr1, List.append_assoc]
        · intro w3 slot h
          simp at h
        · intro w3 slot h
          simp at h
        · intro e w3 slot h
          simp only [Prod.mk.injEq, Res.raise.injEq] at h
          obtain ⟨ev, hev, he⟩ := hm2
          exact ⟨ev, List.mem_append_right _ hev, h.1.1 ▸ he, Or.inr (hc2 ev hev).1⟩


/-! ## The batch: success -/

/-- C3: for a non-empty list, when every call the batch issues against the
session returns (every statement and the final commit among them),
`execute(list)` returns true, and the statement, commit and rollback calls it
issued are exactly the statements of the list, once each and in order,
followed by one commit: no commit before the last statement, no rollback. -/
theorem executeList_all_succeed {σ : Type} (S : Session σ) (g : Transaction)
    (sql : List String) (w : World σ) (hne : sql ≠ [])
    (hok : ∀ ev ∈ (g.executeList S sql w).world.since w, ev.error = none) :
    ∃ w1, g.executeList S sql w = .ok true w1 ∧
      work (w1.since w) = sql.map Call.statement ++ [.commit] := by
  obtain ⟨evs, htr, -, ht, hf, hr⟩ := executeInfo_spec S g sql none w
  have hs : (g.executeList S sql w).world.since w = evs := since_append _ _ _ htr
  rw [hs] at hok
  unfold Transaction.executeList at hs ⊢
  rcases hres : g.executeInfo S sql none w with ⟨r, slot⟩
  rw [hres] at hs
  cases r with
  | ok b w1 =>
    cases b with
    | true =>
      refine ⟨w1, rfl, ?_⟩
      have h := (ht w1 slot hres).2.2
      have hne2 : sql.isEmpty = false := by cases sql <;> simp_all
      simp only [Res.world] at hs
      rw [hs, h, hne2]
      simp
    | false =>
      obtain ⟨text, evs1, evs2, -, hsplit, ⟨ev, hev, he⟩, -⟩ := hf w1 slot hres
      have := hok ev (by rw [hsplit]; exact List.mem_append_left _ hev)
      rw [this] at he
      cases he
  | raise e w1 =>
    obtain ⟨ev, hev, he, -⟩ := hr e w1 slot hres
    have := hok ev hev
    rw [this] at he
    cases he

/-- Witness for C3: the batch of three statements on the reference session
with auto-commit on and no call set up to fail. -/
theorem executeList_all_succeed_witness :
    (["s1", "s2", "s3"] ≠ ([] : List String) ∧
      ∀ ev ∈ ((Transaction.mk true true).executeList (refSession Faults.none)
        ["s1", "s2", "s3"] (World.start idleAuto)).world.since (World.start idleAuto),
        ev.error = none) ∧
    ∃ w1, (Transaction.mk true true).executeList (refSession Faults.none)
        ["s1", "s2", "s3"] (World.start idleAuto) = .ok true w1 ∧
      work (w1.since (World.start idleAuto)) =
        [.statement "s1", .statement "s2", .statement "s3", .commit] :=
  ⟨⟨by decide, by decide⟩,
    executeList_all_succeed (refSession Faults.none) (Transaction.mk true true)
      ["s1", "s2", "s3"] (World.start idleAuto) (by decide) (by decide)⟩

/-- Counterexample for C5 (and its empty-list case): on the reference session
with a transaction open, `execute([])` returns true although it issued no call
at all, so no commit was performed and the transaction is still open. -/
theorem executeList_empty_commits_nothing :
    (Transaction.mk true false).executeList (refSession Faults.none) []
        (World.start { active := true, features := [("autoCommit", false)] }) =
      .ok true (World.start { active := true, features := [("autoCommit", false)] }) ∧
    Call.commit ∉ calls (((Transaction.mk true false).executeList (refSession Faults.none) []
        (World.start { active := true, features := [("autoCommit", false)] })).world.since
        (World.start { active := true, features := [("autoCommit", false)] })) ∧
    (refSession Faults.none).isTransaction
      ((Transaction.mk true false).executeList (refSession Faults.none) []
        (World.start { active := true, features := [("autoCommit", false)] })).world.session =
      true := by
  decide

/-- C5, amended: `execute([])` returns true and leaves the world as it was (no
call is issued).  For a non-empty list, when `execute(list)` returns true every
call it issued returned, and the statement, commit and rollback calls were
exactly the statements of the list in order followed by one commit.  For every
list, when it returns false a session rollback was issued and returned. -/
theorem executeList_all_or_nothing {σ : Type} (S : Session σ) (g : Transaction)
    (sql : List String) (w : World σ) :
    g.executeList S [] w = .ok true w ∧
    (∀ w1, sql ≠ [] → g.executeList S sql w = .ok true w1 →
      (∀ ev ∈ w1.since w, ev.error = none) ∧
        work (w1.since w) = sql.map Call.statement ++ [.commit]) ∧
    (∀ w1, g.executeList S sql w = .ok false w1 →
      ∃ ev ∈ w1.since w, ev.call = .rollback ∧ ev.error = none) := by
  obtain ⟨evs, htr, -, ht, hf, -⟩ := executeInfo_spec S g sql none w
  refine ⟨rfl, ?_, ?_⟩
  · intro w1 hne hres
    unfold Transaction.executeList at hres
    rcases hpair : g.executeInfo S sql none w with ⟨r, slot⟩
    rw [hpair] at hres htr
    subst hres
    have hs : w1.since w = evs := since_append _ _ _ htr
    have hne2 : sql.isEmpty = false := by cases sql <;> simp_all
    obtain ⟨-, hall, hwork⟩ := ht w1 slot hpair
    rw [hs, hwork, hne2]
    exact ⟨hall, by simp⟩
  · intro w1 hres
    unfold Transaction.executeList at hres
    rcases hpair : g.executeInfo S sql none w with ⟨r, slot⟩
    rw [hpair] at hres htr
    subst hres
    have hs : w1.since w = evs := since_append _ _ _ htr
    obtain ⟨text, evs1, evs2, -, hsplit, -, -, hwork, hall⟩ := hf w1 slot hpair
    have hmem : Call.rollback ∈ work evs2 := by rw [hwork]; simp
    simp only [work, calls, List.mem_filter, List.mem_map] at hmem
    obtain ⟨⟨ev, hev, hcall⟩, -⟩ := hmem
    exact ⟨ev, by rw [hs, hsplit]; exact List.mem_append_right _ hev, hcall, hall ev hev⟩

/-! ## The batch: failure -/

/-- Counterexample for C9: on the reference session set up to fail the
statement and then the rollback, both with a `Poco::Exception`,
`execute(["s"])` does not return a boolean: the rollback's error reaches the
caller. -/
theorem executeList_rollback_error_escapes :
    (Transaction.mk false false).executeList
        (refSession statementAndRollbackFail) ["s"] (World.start idlePlain) =
      .raise (.poco "connection lost")
        { session := { active := true, features := [] },
          trace := [
            { call := .begin, pre := { active := false, features := [] }, error := none },
            { call := .statement "s", pre := { active := true, features := [] },
              error := some (.poco "duplicate key") },
            { call := .rollback, pre := { active := true, features := [] },
              error := some (.poco "connection lost") }],
          log := [] } := by
  decide

/-- Besides the rollback's error, an exception of a statement that is not a
`Poco::Exception` reaches the caller too, and then no rollback is issued. -/
theorem executeList_foreign_error_escapes :
    (Transaction.mk false false).executeList (refSession statementFailsForeign) ["s"]
        (World.start idlePlain) =
      .raise .foreign
        { session := { active := true, features := [] },
          trace := [
            { call := .begin, pre := { active := false, features := [] }, error := none },
            { call := .statement "s", pre := { active := true, features := [] },
              error := some .foreign }],
          log := [] } := by
  decide

/-- C9, amended: on a session that raises only `Poco::Exception`s and whose
rollback and auto-commit restore never raise, the batch `execute` always
returns a boolean (`execute(list)` is the case of no slot).  The boolean is
false exactly when a call it issued raised; then the slot, when given, holds the
text of an error that was raised, and otherwise the slot is as it was. -/
theorem executeInfo_returns_when_rollback_returns {σ : Type} (S : Session σ) (g : Transaction)
    (sql : List String) (info : Option String) (w : World σ)
    (hpoco : ∀ c st, (S.perform c st).1 ≠ some .foreign)
    (hrb : ∀ st, (S.rollback st).1 = none)
    (hset : ∀ st, (S.setFeature st "autoCommit" true).1 = none) :
    ∃ b w1 slot, g.executeInfo S sql info w = (.ok b w1, slot) ∧
      (b = false ↔ ∃ ev ∈ w1.since w, ev.error ≠ none) ∧
      (b = true → slot = info) ∧
      (b = false → ∃ text, slot = info.map (fun _ => text) ∧
        ∃ ev ∈ w1.since w, ev.error = some (.poco text)) := by
  obtain ⟨evs, htr, hev, ht, hf, hr⟩ := executeInfo_spec S g sql info w
  rcases hpair : g.executeInfo S sql info w with ⟨r, slot⟩
  rw [hpair] at htr
  cases r with
  | raise e w1 =>
    exfalso
    obtain ⟨ev, hmem, he, hkind⟩ := hr e w1 slot hpair
    have hfaith := (hev ev hmem).2
    rcases hkind with h | h | h
    · rw [h] at he
      exact hpoco ev.call ev.pre (hfaith ▸ he)
    · rw [hfaith, h] at he
      have := hrb ev.pre
      simp only [Session.perform] at he
      rw [this] at he
      cases he
    · rw [hfaith, h] at he
      have := hset ev.pre
      simp only [Session.perform] at he
      rw [this] at he
      cases he
  | ok b w1 =>
    have hs : w1.since w = evs := since_append _ _ _ htr
    refine ⟨b, w1, slot, rfl, ?_⟩
    rw [hs]
    cases b with
    | true =>
      obtain ⟨hslot, hall, -⟩ := ht w1 slot hpair
      refine ⟨⟨?_, ?_⟩, ?_, ?_⟩
      · intro h
        cases h
      · rintro ⟨ev, hmem, he⟩
        exact absurd (hall ev hmem) he
      · intro _
        exact hslot
      · intro h
        cases h
    | false =>
      obtain ⟨text, evs1, evs2, hslot, hsplit, ⟨ev, hmem, he⟩, -⟩ := hf w1 slot hpair
      have hmem2 : ev ∈ evs := by rw [hsplit]; exact List.mem_append_left _ hmem
      refine ⟨⟨?_, ?_⟩, ?_, ?_⟩
      · intro _
        exact ⟨ev, hmem2, by rw [he]; simp⟩
      · intro _
        rfl
      · intro h
        cases h
      · intro _
        exact ⟨text, hslot, ev, hmem2, he⟩

/-- The reference session raises only the errors it was set up with or its own
`Poco::Exception`s. -/
theorem refSession_raises_poco (c : Call) (st : RefState) :
    ((refSession secondStatementFails).perform c st).1 ≠ some .foreign := by
  cases c with
  | setFeature name v => simp [Session.perform, refSession]
  | begin =>
    cases h : st.active <;> simp [Session.perform, refSession, secondStatementFails, h]
  | statement sql =>
    by_cases h : sql = "s2"
    · simp [Session.perform, refSession, secondStatementFails, h, List.lookup]
    · have h2 : (sql == "s2") = false := by simpa using h
      simp [Session.perform, refSession, secondStatementFails, List.lookup, h2]
  | commit =>
    cases h : st.active <;> simp [Session.perform, refSession, secondStatementFails, h]
  | rollback => simp [Session.perform, refSession, secondStatementFails]

/-- Witness for C9, amended: the batch of two statements whose second one the
reference session is set up to fail, with a slot given. -/
theorem executeInfo_returns_when_rollback_returns_witness :
    ∃ b w1 slot, (Transaction.mk true false).executeInfo (refSession secondStatementFails)
        ["s1", "s2"] (some "") (World.start idleAuto) = (.ok b w1, slot) ∧
      (b = false ↔ ∃ ev ∈ w1.since (World.start idleAuto), ev.error ≠ none) ∧
      (b = true → slot = some "") ∧
      (b = false → ∃ text, slot = (some "").map (fun _ => text) ∧
        ∃ ev ∈ w1.since (World.start idleAuto), ev.error = some (.poco text)) :=
  executeInfo_returns_when_rollback_returns _ _ _ _ _ refSession_raises_poco
    (fun _ => rfl) (fun _ => rfl)


/-! ## No begin while a transaction is active -/

@[simp] theorem liftSession_world {α W : Type} (r : Res SessionError α W) :
    (Res.liftSession r).world = r.world := by
  cases r <;> rfl

/-- What `begin()` issues: nothing while the session reports a transaction;
otherwise the disabling `setFeature` when the flag is set, then the session
begin.  On a session whose feature store leaves the transaction boundary
alone, that begin still finds no transaction. -/
theorem begin_spec {σ : Type} (S : Session σ)
    (hsep : ∀ st v, S.isTransaction (S.setFeature st "autoCommit" v).2 = S.isTransaction st)
    (g : Transaction) (w : World σ) :
    ∃ evs, (g.begin S w).world.trace = w.trace ++ evs ∧
      ∀ ev ∈ evs, ev.call = .begin → S.isTransaction ev.pre = false := by
  unfold Transaction.begin
  by_cases ht : S.isTransaction w.session = true
  · exact ⟨[], by simp [ht, Res.world]⟩
  · have hf : S.isTransaction w.session = false := by simpa using ht
    simp only [hf, Bool.not_false, if_true, liftSession_world]
    cases ha : g._autoCommit
    · simp only [Bool.false_eq_true, if_false, andThen_ok]
      rcases hb : (S.perform .begin w.session).1 with _ | e
      · rw [invoke_none _ _ _ hb]
        exact ⟨[⟨.begin, w.session, (S.perform .begin w.session).1⟩], rfl, by simp [hf]⟩
      · rw [invoke_some _ _ _ e hb]
        exact ⟨[⟨.begin, w.session, (S.perform .begin w.session).1⟩], rfl, by simp [hf]⟩
    · simp only [if_true]
      rcases hs : (S.perform (.setFeature "autoCommit" false) w.session).1 with _ | e
      · rw [invoke_none _ _ _ hs, andThen_ok]
        have hidle : S.isTransaction (w.after S (.setFeature "autoCommit" false)).session =
            false := by
          simpa [Session.perform, hf] using hsep w.session false
        rcases hb : (S.perform .begin
          (w.after S (.setFeature "autoCommit" false)).session).1 with _ | e
        · rw [invoke_none _ _ _ hb]
          refine ⟨[⟨.setFeature "autoCommit" false, w.session,
            (S.perform (.setFeature "autoCommit" false) w.session).1⟩,
            ⟨.begin, (w.after S (.setFeature "autoCommit" false)).session,
              (S.perform .begin (w.after S (.setFeature "autoCommit" false)).session).1⟩],
            by simp [Res.world], ?_⟩
          intro ev hev hcall
          simp only [List.mem_cons, List.mem_singleton, List.not_mem_nil, or_false] at hev
          rcases hev with rfl | rfl
          · cases hcall
          · exact hidle
        · rw [invoke_some _ _ _ e hb]
          refine ⟨[⟨.setFeature "autoCommit" false, w.session,
            (S.perform (.setFeature "autoCommit" false) w.session).1⟩,
            ⟨.begin, (w.after S (.setFeature "autoCommit" false)).session,
              (S.perform .begin (w.after S (.setFeature "autoCommit" false)).session).1⟩],
            by simp [Res.world], ?_⟩
          intro ev hev hcall
          simp only [List.mem_cons, List.mem_singleton, List.not_mem_nil, or_false] at hev
          rcases hev with rfl | rfl
          · cases hcall
          · exact hidle
      · rw [invoke_some _ _ _ e hs, andThen_raise]
        exact ⟨[⟨.setFeature "autoCommit" false, w.session,
          (S.perform (.setFeature "autoCommit" false) w.session).1⟩], rfl, by simp⟩

/-- What the destructor issues: one rollback, or nothing. -/
theorem destroy_spec {σ : Type} (S : Session σ) (g : Transaction) (w : World σ) :
    ∃ evs, (g.destroy S w).world.trace = w.trace ++ evs ∧ ∀ ev ∈ evs, ev.call = .rollback := by
  unfold Transaction.destroy
  by_cases ht : S.isTransaction w.session = true
  · refine ⟨[⟨.rollback, w.session, (S.perform .rollback w.session).1⟩], ?_, by simp⟩
    simp only [ht, if_true]
    rcases hr : (S.perform .rollback w.session).1 with _ | (_ | _)
    · rw [invoke_none S .rollback _ (by simpa using hr)]
      simp [Res.world, hr]
    · rw [invoke_some S .rollback _ _ (by simpa using hr)]
      simp [Res.world, hr]
    · rw [invoke_some S .rollback _ _ (by simpa using hr)]
      simp [Res.world, hr]
  · exact ⟨[], by simp [ht, Res.world]⟩

/-- Every operation of the guard extends the trace, and every session begin it
adds was issued while the session reported no transaction. -/
theorem apply_spec {σ : Type} (S : Session σ)
    (hsep : ∀ st v, S.isTransaction (S.setFeature st "autoCommit" v).2 = S.isTransaction st)
    (op : Op) (g : Transaction) (w : World σ) :
    ∃ evs, (op.apply S g w).2.trace = w.trace ++ evs ∧
      ∀ ev ∈ evs, ev.call = .begin → S.isTransaction ev.pre = false := by
  cases op with
  | create pLogger =>
    obtain ⟨evs, htr, hb⟩ := begin_spec S hsep
      { _autoCommit := Transaction.snapshot S w.session, _pLogger := pLogger } w
    refine ⟨evs, ?_, hb⟩
    simp only [Op.apply, Transaction.create]
    generalize Transaction.begin S _ w = r at htr
    cases r <;> exact htr
  | createDeferred start =>
    cases start with
    | false => exact ⟨[], by simp [Op.apply, Transaction.createDeferred]⟩
    | true =>
      obtain ⟨evs, htr, hb⟩ := begin_spec S hsep
        { _autoCommit := Transaction.snapshot S w.session, _pLogger := false } w
      refine ⟨evs, ?_, hb⟩
      simp only [Op.apply, Transaction.createDeferred, if_true]
      generalize Transaction.begin S _ w = r at htr
      cases r <;> exact htr
  | begin => exact begin_spec S hsep g w
  | execute sql doCommit =>
    obtain ⟨evs, htr, hb, -⟩ := execute_spec S g sql doCommit w
    exact ⟨evs, htr, fun ev hev => (hb ev hev).1⟩
  | executeList sql =>
    obtain ⟨evs, htr, hb, -⟩ := executeInfo_spec S g sql none w
    exact ⟨evs, htr, fun ev hev => (hb ev hev).1⟩
  | executeInfo sql info =>
    obtain ⟨evs, htr, hb, -⟩ := executeInfo_spec S g sql info w
    exact ⟨evs, htr, fun ev hev => (hb ev hev).1⟩
  | commit =>
    obtain ⟨evs, htr, -, hc, -⟩ := commit_spec S g w
    refine ⟨evs, htr, fun ev hev hcall => ?_⟩
    rcases (hc ev hev).1 with h | h <;> rw [h] at hcall <;> cases hcall
  | rollback =>
    obtain ⟨evs, htr, -, hc, -⟩ := rollback_spec S g w
    refine ⟨evs, htr, fun ev hev hcall => ?_⟩
    rcases (hc ev hev).1 with h | h <;> rw [h] at hcall <;> cases hcall
  | destroy =>
    obtain ⟨evs, htr, hc⟩ := destroy_spec S g w
    refine ⟨evs, htr, fun ev hev hcall => ?_⟩
    rw [hc ev hev] at hcall
    cases hcall

/-- The same for a sequence of operations. -/
theorem runOps_spec {σ : Type} (S : Session σ)
    (hsep : ∀ st v, S.isTransaction (S.setFeature st "autoCommit" v).2 = S.isTransaction st)
    (ops : List Op) :
    ∀ (g : Transaction) (w : World σ), ∃ evs, (runOps S ops g w).2.trace = w.trace ++ evs ∧
      ∀ ev ∈ evs, ev.call = .begin → S.isTransaction ev.pre = false := by
  induction ops with
  | nil =>
    intro g w
    exact ⟨[], by simp [runOps]⟩
  | cons op ops ih =>
    intro g w
    obtain ⟨evs1, htr1, hb1⟩ := apply_spec S hsep op g w
    obtain ⟨evs2, htr2, hb2⟩ := ih (op.apply S g w).1 (op.apply S g w).2
    refine ⟨evs1 ++ evs2, ?_, ?_⟩
    · simp only [runOps]
      rw [htr2, htr1, List.append_assoc]
    · intro ev hev
      rcases List.mem_append.1 hev with h | h
      · exact hb1 ev h
      · exact hb2 ev h

/-- C7: on a session whose feature store leaves the transaction boundary alone,
in every sequence of guard operations (either constructor, begin, execute of one
statement, execute of a list with or without a slot, commit, rollback, destroy)
every session begin the guard issues finds the session reporting no
transaction; so no session begin issued while a transaction is active returns,
and a `begin()` of the guard made while one is active never returns either. -/
theorem no_begin_while_active {σ : Type} (S : Session σ)
    (hsep : ∀ st v, S.isTransaction (S.setFeature st "autoCommit" v).2 = S.isTransaction st)
    (ops : List Op) (g : Transaction) (w : World σ) :
    (∀ ev ∈ (runOps S ops g w).2.since w, ev.call = .begin → S.isTransaction ev.pre = false) ∧
    (¬ ∃ ev ∈ (runOps S ops g w).2.since w,
      ev.call = .begin ∧ S.isTransaction ev.pre = true ∧ ev.error = none) ∧
    (∀ (g1 : Transaction) (w1 : World σ), S.isTransaction w1.session = true →
      (g1.begin S w1).returned = false) := by
  obtain ⟨evs, htr, hb⟩ := runOps_spec S hsep ops g w
  rw [since_append w _ evs htr]
  refine ⟨hb, ?_, ?_⟩
  · rintro ⟨ev, hev, hcall, hact, -⟩
    rw [hb ev hev hcall] at hact
    cases hact
  · intro g1 w1 h
    simp [Transaction.begin, h, Res.returned]

/-- Witness for C7: a sequence using every operation on the reference session. -/
theorem no_begin_while_active_witness :
    (∀ ev ∈ (runOps (refSession Faults.none)
        [.createDeferred false, .execute "s0" false, .begin, .executeList ["s1", "s2"],
          .create true, .begin, .executeInfo ["s3"] (some ""), .commit, .begin, .rollback,
          .destroy]
        (Transaction.mk false false) (World.start idleAuto)).2.since (World.start idleAuto),
      ev.call = .begin → (refSession Faults.none).isTransaction ev.pre = false) ∧
    (¬ ∃ ev ∈ (runOps (refSession Faults.none)
        [.createDeferred false, .execute "s0" false, .begin, .executeList ["s1", "s2"],
          .create true, .begin, .executeInfo ["s3"] (some ""), .commit, .begin, .rollback,
          .destroy]
        (Transaction.mk false false) (World.start idleAuto)).2.since (World.start idleAuto),
      ev.call = .begin ∧ (refSession Faults.none).isTransaction ev.pre = true ∧
        ev.error = none) ∧
    (∀ (g1 : Transaction) (w1 : World RefState),
      (refSession Faults.none).isTransaction w1.session = true →
        (g1.begin (refSession Faults.none) w1).returned = false) :=
  no_begin_while_active (refSession Faults.none) (fun _ _ => rfl) _ _ _


/-! ## Reusing one guard -/

/-- The reference session is lawful, whatever it is set up to fail. -/
theorem refSession_lawful (f : Faults) : (refSession f).Lawful where
  begin_opens st h := by
    rcases hb : f.onBegin with _ | e <;> cases ha : st.active <;>
      simp_all [refSession]
  begin_keeps st name := by
    rcases hb : f.onBegin with _ | e <;> cases ha : st.active <;>
      simp [refSession, hb, ha]
  commit_closes st h := by
    rcases hb : f.onCommit with _ | e <;> cases ha : st.active <;>
      simp_all [refSession]
  commit_keeps st name := by
    rcases hb : f.onCommit with _ | e <;> cases ha : st.active <;>
      simp [refSession, hb, ha]
  rollback_closes st h := by
    rcases hb : f.onRollback with _ | e <;> simp_all [refSession]
  rollback_keeps st name := by
    rcases hb : f.onRollback with _ | e <;> simp [refSession, hb]
  setFeature_sets st name v _ := by
    simp [refSession, List.lookup]
  setFeature_keeps st name v := rfl

/-- One begin and commit on a lawful session with no transaction open, by a
guard whose flag is the snapshot of that session: both return, the transaction
is open in between and closed afterwards, and the auto-commit feature is back
to what it was. -/
theorem begin_commit_cycle {σ : Type} (S : Session σ) (hl : S.Lawful)
    (hbegin : ∀ st, S.isTransaction st = false → (S.begin st).1 = none)
    (hcommit : ∀ st, S.isTransaction st = true → (S.commit st).1 = none)
    (g : Transaction) (w : World σ) (hidle : S.isTransaction w.session = false)
    (hsnap : g._autoCommit = Transaction.snapshot S w.session) :
    ∃ w1 w2, g.begin S w = .ok () w1 ∧ g.commit S w1 = .ok () w2 ∧
      S.isTransaction w1.session = true ∧ S.isTransaction w2.session = false ∧
      S.hasFeature w2.session "autoCommit" = S.hasFeature w.session "autoCommit" ∧
      S.getFeature w2.session "autoCommit" = S.getFeature w.session "autoCommit" := by
  cases ha : g._autoCommit
  · have hb := hbegin w.session hidle
    have hopen := hl.begin_opens w.session hb
    have hc := hcommit _ hopen
    refine ⟨w.after S .begin, (g.logLine (.debug "Committing transaction.")
      (w.after S .begin)).after S .commit, ?_, ?_, hopen, ?_, ?_, ?_⟩
    · simp only [Transaction.begin, hidle, ha, Bool.not_false, if_true, Bool.false_eq_true,
        if_false, andThen_ok]
      rw [invoke_none S .begin w hb]
      rfl
    · simp only [Transaction.commit, ha, Bool.false_eq_true, if_false]
      rw [invoke_none S .commit _ (by simpa using hc), andThen_ok]
    · simpa using hl.commit_closes _ hc
    · have h1 := (hl.commit_keeps (S.begin w.session).2 "autoCommit").1
      have h2 := (hl.begin_keeps w.session "autoCommit").1
      simpa [Session.perform, h2] using h1
    · have h1 := (hl.commit_keeps (S.begin w.session).2 "autoCommit").2
      have h2 := (hl.begin_keeps w.session "autoCommit").2
      simpa [Session.perform, h2] using h1
  · rw [ha] at hsnap
    have hhas : S.hasFeature w.session "autoCommit" = true := by
      by_contra hn
      simp [Transaction.snapshot, hn] at hsnap
    have hget : S.getFeature w.session "autoCommit" = true := by
      simpa [Transaction.snapshot, hhas] using hsnap.symm
    -- the disabling setFeature
    obtain ⟨hs1, hhas1, -⟩ := hl.setFeature_sets w.session "autoCommit" false hhas
    have hidle1 : S.isTransaction (S.setFeature w.session "autoCommit" false).2 = false := by
      rw [hl.setFeature_keeps, hidle]
    -- the session begin
    have hb := hbegin _ hidle1
    have hopen := hl.begin_opens _ hb
    have hhas2 := ((hl.begin_keeps (S.setFeature w.session "autoCommit" false).2
      "autoCommit").1).trans hhas1
    -- the session commit
    have hc := hcommit _ hopen
    have hclosed := hl.commit_closes _ hc
    have hhas3 := ((hl.commit_keeps
      (S.begin (S.setFeature w.session "autoCommit" false).2).2 "autoCommit").1).trans hhas2
    -- the restoring setFeature
    obtain ⟨hs4, hhas4, hget4⟩ := hl.setFeature_sets _ "autoCommit" true hhas3
    have hidle4 := (hl.setFeature_keeps
      (S.commit (S.begin (S.setFeature w.session "autoCommit" false).2).2).2
      "autoCommit" true).trans hclosed
    refine ⟨(w.after S (.setFeature "autoCommit" false)).after S .begin,
      ((g.logLine (.debug "Committing transaction.")
        ((w.after S (.setFeature "autoCommit" false)).after S .begin)).after S .commit).after S
          (.setFeature "autoCommit" true), ?_, ?_, hopen, ?_, ?_, ?_⟩
    · simp only [Transaction.begin, hidle, ha, Bool.not_false, if_true]
      rw [invoke_none S (.setFeature "autoCommit" false) w hs1, andThen_ok,
        invoke_none S .begin (w.after S (.setFeature "autoCommit" false)) hb]
      rfl
    · simp only [Transaction.commit, ha, if_true]
      rw [invoke_none S .commit _ (by simpa using hc), andThen_ok,
        invoke_none S (.setFeature "autoCommit" true) _ (by simpa using hs4)]
    · simpa using hidle4
    · rw [hhas]
      simpa using hhas4
    · rw [hget]
      simpa using hget4

/-- C8: starting from a lawful session with no transaction open, on which a
begin returns whenever no transaction is open and a commit returns whenever one
is, the sequence begin, commit, begin, commit on one guard (its flag the
snapshot of the starting session) returns at every step; after each commit the
session reports no transaction, and its auto-commit feature is what it was
before the first begin. -/
theorem begin_commit_twice {σ : Type} (S : Session σ) (hl : S.Lawful)
    (hbegin : ∀ st, S.isTransaction st = false → (S.begin st).1 = none)
    (hcommit : ∀ st, S.isTransaction st = true → (S.commit st).1 = none)
    (g : Transaction) (w : World σ) (hidle : S.isTransaction w.session = false)
    (hsnap : g._autoCommit = Transaction.snapshot S w.session) :
    ∃ w1 w2 w3 w4, g.begin S w = .ok () w1 ∧ g.commit S w1 = .ok () w2 ∧
      g.begin S w2 = .ok () w3 ∧ g.commit S w3 = .ok () w4 ∧
      S.isTransaction w2.session = false ∧ S.isTransaction w4.session = false ∧
      (S.hasFeature w2.session "autoCommit" = S.hasFeature w.session "autoCommit" ∧
        S.getFeature w2.session "autoCommit" = S.getFeature w.session "autoCommit") ∧
      (S.hasFeature w4.session "autoCommit" = S.hasFeature w.session "autoCommit" ∧
        S.getFeature w4.session "autoCommit" = S.getFeature w.session "autoCommit") := by
  obtain ⟨w1, w2, hb1, hc1, -, hidle2, hhas2, hget2⟩ :=
    begin_commit_cycle S hl hbegin hcommit g w hidle hsnap
  have hsnap2 : g._autoCommit = Transaction.snapshot S w2.session := by
    rw [hsnap]
    simp only [Transaction.snapshot, hhas2, hget2]
  obtain ⟨w3, w4, hb2, hc2, -, hidle4, hhas4, hget4⟩ :=
    begin_commit_cycle S hl hbegin hcommit g w2 hidle2 hsnap2
  exact ⟨w1, w2, w3, w4, hb1, hc1, hb2, hc2, hidle2, hidle4, ⟨hhas2, hget2⟩,
    ⟨hhas4.trans hhas2, hget4.trans hget2⟩⟩

/-- Witness for C8: the reference session with auto-commit on and a guard
constructed on it with deferred begin. -/
theorem begin_commit_twice_witness :
    ∃ w1 w2 w3 w4,
      (Transaction.mk true false).begin (refSession Faults.none) (World.start idleAuto) =
        .ok () w1 ∧
      (Transaction.mk true false).commit (refSession Faults.none) w1 = .ok () w2 ∧
      (Transaction.mk true false).begin (refSession Faults.none) w2 = .ok () w3 ∧
      (Transaction.mk true false).commit (refSession Faults.none) w3 = .ok () w4 ∧
      (refSession Faults.none).isTransaction w2.session = false ∧
      (refSession Faults.none).isTransaction w4.session = false ∧
      ((refSession Faults.none).hasFeature w2.session "autoCommit" =
          (refSession Faults.none).hasFeature (World.start idleAuto).session "autoCommit" ∧
        (refSession Faults.none).getFeature w2.session "autoCommit" =
          (refSession Faults.none).getFeature (World.start idleAuto).session "autoCommit") ∧
      ((refSession Faults.none).hasFeature w4.session "autoCommit" =
          (refSession Faults.none).hasFeature (World.start idleAuto).session "autoCommit" ∧
        (refSession Faults.none).getFeature w4.session "autoCommit" =
          (refSession Faults.none).getFeature (World.start idleAuto).session "autoCommit") :=
  begin_commit_twice (refSession Faults.none) (refSession_lawful Faults.none)
    (fun st h => by
      have h1 : st.active = false := h
      simp [refSession, Faults.none, h1])
    (fun st h => by
      have h1 : st.active = true := h
      simp [refSession, Faults.none, h1])
    (Transaction.mk true false) (World.start idleAuto) rfl (by decide)


/-! ## Auto-commit across the transaction -/

/-- C1, at the failing input: on the reference session with auto-commit on, the
eager constructor snapshots the flag as true, disables auto-commit and opens the
transaction; destroying the guard then issues the session rollback and nothing
else, so the session is left with auto-commit off, whereas `rollback()` from
the same world issues the restoring `setFeature` and leaves it on. -/
theorem destroy_leaves_autoCommit_off :
    Transaction.create (refSession Faults.none) false (World.start idleAuto) =
      .ok { _autoCommit := true, _pLogger := false }
        { session := { active := true, features := [("autoCommit", false), ("autoCommit", true)] },
          trace := [
            { call := .setFeature "autoCommit" false,
              pre := { active := false, features := [("autoCommit", true)] }, error := none },
            { call := .begin,
              pre := { active := false,
                       features := [("autoCommit", false), ("autoCommit", true)] },
              error := none }],
          log := [] } ∧
    calls ((Transaction.mk true false).destroy (refSession Faults.none)
        (Transaction.create (refSession Faults.none) false
          (World.start idleAuto)).world).world.trace =
      [.setFeature "autoCommit" false, .begin, .rollback] ∧
    (Transaction.mk true false).destroy (refSession Faults.none)
        (Transaction.create (refSession Faults.none) false (World.start idleAuto)).world =
      .ok ()
        { session := { active := false,
                       features := [("autoCommit", false), ("autoCommit", true)] },
          trace := [
            { call := .setFeature "autoCommit" false,
              pre := { active := false, features := [("autoCommit", true)] }, error := none },
            { call := .begin,
              pre := { active := false,
                       features := [("autoCommit", false), ("autoCommit", true)] },
              error := none },
            { call := .rollback,
              pre := { active := true,
                       features := [("autoCommit", false), ("autoCommit", true)] },
              error := none }],
          log := [] } ∧
    (refSession Faults.none).getFeature
        ((Transaction.mk true false).destroy (refSession Faults.none)
          (Transaction.create (refSession Faults.none) false
            (World.start idleAuto)).world).world.session "autoCommit" = false ∧
    (refSession Faults.none).getFeature
        ((Transaction.mk true false).rollback (refSession Faults.none)
          (Transaction.create (refSession Faults.none) false
            (World.start idleAuto)).world).world.session "autoCommit" = true := by
  decide

/-- C10, at the failing input: on the reference session with auto-commit on, a
guard constructed with deferred begin snapshots the flag as true and touches
nothing; `execute("s", false)` then issues the session begin and the statement
and no `setFeature`, so the statement runs with auto-commit still on, whereas
`begin()` from the same world disables auto-commit before the session begin. -/
theorem execute_begins_with_autoCommit_on :
    Transaction.createDeferred (refSession Faults.none) false (World.start idleAuto) =
      .ok { _autoCommit := true, _pLogger := false } (World.start idleAuto) ∧
    (Transaction.mk true false).execute (refSession Faults.none) "s" false
        (World.start idleAuto) =
      .ok ()
        { session := { active := true, features := [("autoCommit", true)] },
          trace := [
            { call := .begin,
              pre := { active := false, features := [("autoCommit", true)] }, error := none },
            { call := .statement "s",
              pre := { active := true, features := [("autoCommit", true)] }, error := none }],
          log := [] } ∧
    (refSession Faults.none).getFeature
        { active := true, features := [("autoCommit", true)] } "autoCommit" = true ∧
    (Transaction.mk true false).begin (refSession Faults.none) (World.start idleAuto) =
      .ok ()
        { session := { active := true,
                       features := [("autoCommit", false), ("autoCommit", true)] },
          trace := [
            { call := .setFeature "autoCommit" false,
              pre := { active := false, features := [("autoCommit", true)] }, error := none },
            { call := .begin,
              pre := { active := false,
                       features := [("autoCommit", false), ("autoCommit", true)] },
              error := none }],
          log := [] } := by
  decide

/-! ## The single-statement execute -/

@[simp] theorem calls_nil {σ : Type} : calls ([] : List (Event σ)) = [] := rfl

@[simp] theorem calls_cons {σ : Type} (ev : Event σ) (evs : List (Event σ)) :
    calls (ev :: evs) = ev.call :: calls evs := rfl

theorem mem_calls {σ : Type} (evs : List (Event σ)) (c : Call) :
    c ∈ calls evs ↔ ∃ ev ∈ evs, ev.call = c := by
  simp [calls]

/-- The statement of the single-statement `execute` and the commit that may
follow it, issued with a transaction active. -/
theorem statement_then_commit_contract {σ : Type} (S : Session σ) (g : Transaction)
    (sql : String) (c : Bool) (w : World σ) (hact : S.isTransaction w.session = true)
    (hkeeps : ∀ st, S.isTransaction (S.run st sql).2 = S.isTransaction st) :
    ∃ evs, (((S.invoke (.statement sql) w).andThen fun _ w2 =>
          if c then g.commit S w2 else .ok () w2)).world.trace = w.trace ++ evs ∧
      Call.begin ∉ calls evs ∧
      (work evs = [.statement sql] ∨ work evs = [.statement sql, .commit]) ∧
      (Call.commit ∈ work evs ↔
        c = true ∧ ∃ ev ∈ evs, ev.call = .statement sql ∧ ev.error = none) ∧
      (∀ ev ∈ evs, ev.call = .statement sql → ∀ e, ev.error = some e →
        (∃ w1, ((S.invoke (.statement sql) w).andThen fun _ w2 =>
            if c then g.commit S w2 else .ok () w2) = .raise e w1 ∧
          S.isTransaction w1.session = true) ∧
        work evs = [.statement sql]) := by
  rcases hs : (S.perform (.statement sql) w.session).1 with _ | e
  · rw [invoke_none _ _ _ hs, andThen_ok]
    cases c
    · refine ⟨[⟨.statement sql, w.session, none⟩], by simp [Res.world, hs], by simp,
        Or.inl (by simp [work, Call.isWork]), by simp [work, Call.isWork], ?_⟩
      intro ev hev _ e he
      rw [List.mem_singleton.1 hev] at he
      cases he
    · obtain ⟨evs, htr, hwork, hc, -⟩ := commit_spec S g (w.after S (.statement sql))
      have hcall : ∀ ev ∈ evs, ev.call ≠ .begin ∧ ev.call ≠ .statement sql := by
        intro ev hev
        rcases (hc ev hev).1 with h | h <;> simp [h]
      refine ⟨⟨.statement sql, w.session, none⟩ :: evs, by simpa [hs] using htr, ?_,
        Or.inr (by simp [work_cons, Call.isWork, hwork]),
        ⟨fun _ => ⟨rfl, _, List.mem_cons_self _ _, rfl, rfl⟩,
          fun _ => by simp [work_cons, Call.isWork, hwork]⟩, ?_⟩
      · rw [mem_calls]
        rintro ⟨ev, hev, hb⟩
        rcases List.mem_cons.1 hev with rfl | hev
        · cases hb
        · exact (hcall ev hev).1 hb
      · intro ev hev hst e he
        rcases List.mem_cons.1 hev with rfl | hev
        · cases he
        · exact absurd hst (hcall ev hev).2
  · rw [invoke_some _ _ _ e hs, andThen_raise]
    refine ⟨[⟨.statement sql, w.session, some e⟩], by simp [Res.world, hs], by simp,
      Or.inl (by simp [work, Call.isWork]), by simp [work, Call.isWork], ?_⟩
    intro ev hev _ e2 he2
    rw [List.mem_singleton.1 hev] at he2
    simp only [Option.some.injEq] at he2
    refine ⟨⟨_, by rw [he2], ?_⟩, by simp [work, Call.isWork]⟩
    have := hkeeps w.session
    simpa [Session.perform, hact] using this

/-- C11: `execute(statement, commitAfter)` issues one session begin when the
session reports no transaction on entry and none otherwise.  When that begin
returns and opens the transaction, and a statement leaves the transaction
boundary alone: the statement is run exactly once, before anything else that
acts on the data; one commit follows exactly when `commitAfter` is true and the
statement returned, and none otherwise; no rollback is issued; and when the
statement raises, `execute` raises that error, having issued neither commit nor
rollback, with the transaction still active. -/
theorem execute_contract {σ : Type} (S : Session σ) (g : Transaction) (sql : String)
    (c : Bool) (w : World σ)
    (hbegin : S.isTransaction w.session = false →
      (S.begin w.session).1 = none ∧ S.isTransaction (S.begin w.session).2 = true)
    (hkeeps : ∀ st, S.isTransaction (S.run st sql).2 = S.isTransaction st) :
    (calls ((g.execute S sql c w).world.since w)).count .begin =
      (if S.isTransaction w.session then 0 else 1) ∧
    (work ((g.execute S sql c w).world.since w) = [.statement sql] ∨
      work ((g.execute S sql c w).world.since w) = [.statement sql, .commit]) ∧
    (Call.commit ∈ work ((g.execute S sql c w).world.since w) ↔
      c = true ∧ ∃ ev ∈ (g.execute S sql c w).world.since w,
        ev.call = .statement sql ∧ ev.error = none) ∧
    (∀ ev ∈ (g.execute S sql c w).world.since w, ev.call = .statement sql →
      ∀ e, ev.error = some e →
        (∃ w1, g.execute S sql c w = .raise e w1 ∧ S.isTransaction w1.session = true) ∧
        work ((g.execute S sql c w).world.since w) = [.statement sql]) := by
  unfold Transaction.execute
  by_cases ht : S.isTransaction w.session = true
  · obtain ⟨evs, htr, hnb, hw, hcm, hst⟩ :=
      statement_then_commit_contract S g sql c w ht hkeeps
    simp only [ht, Bool.not_true, Bool.false_eq_true, if_false, andThen_ok, if_true]
    rw [since_append _ _ _ htr]
    exact ⟨List.count_eq_zero_of_not_mem hnb, hw, hcm, hst⟩
  · have hf : S.isTransaction w.session = false := by simpa using ht
    obtain ⟨hb, hopen⟩ := hbegin hf
    simp only [hf, Bool.not_false, if_true, Bool.false_eq_true, if_false]
    rw [invoke_none S .begin w hb, andThen_ok]
    obtain ⟨evs, htr, hnb, hw, hcm, hst⟩ :=
      statement_then_commit_contract S g sql c (w.after S .begin) hopen hkeeps
    have htr2 : (((S.invoke (.statement sql) (w.after S .begin)).andThen fun _ w2 =>
        if c then g.commit S w2 else .ok () w2)).world.trace =
        w.trace ++ (⟨.begin, w.session, none⟩ :: evs) := by
      rw [htr]
      simp [Session.perform, hb]
    rw [since_append _ _ _ htr2]
    refine ⟨?_, by simpa [work_cons, Call.isWork] using hw,
      by simpa [work_cons, Call.isWork] using hcm, ?_⟩
    · simp [List.count_cons, List.count_eq_zero_of_not_mem hnb]
    · intro ev hev hcall e he
      rcases List.mem_cons.1 hev with rfl | hev
      · cases hcall
      · simpa [work_cons, Call.isWork] using hst ev hev hcall e he

/-- Witness for C11: `execute("s", true)` by a guard with a true flag on the
reference session, idle and set up to fail the statement `s`. -/
theorem execute_contract_witness :
    (((refSession statementFails).isTransaction (World.start idleAuto).session = false →
        ((refSession statementFails).begin (World.start idleAuto).session).1 = none ∧
        (refSession statementFails).isTransaction
          ((refSession statementFails).begin (World.start idleAuto).session).2 = true) ∧
      ∀ st, (refSession statementFails).isTransaction
        ((refSession statementFails).run st "s").2 = (refSession statementFails).isTransaction st) ∧
    (calls (((Transaction.mk true false).execute (refSession statementFails) "s" true
        (World.start idleAuto)).world.since (World.start idleAuto))).count .begin = 1 ∧
    (Call.commit ∈ work (((Transaction.mk true false).execute (refSession statementFails) "s"
        true (World.start idleAuto)).world.since (World.start idleAuto)) ↔
      true = true ∧ ∃ ev ∈ ((Transaction.mk true false).execute (refSession statementFails) "s"
        true (World.start idleAuto)).world.since (World.start idleAuto),
        ev.call = .statement "s" ∧ ev.error = none) :=
  ⟨⟨fun _ => ⟨rfl, rfl⟩, fun _ => rfl⟩,
    (execute_contract (refSession statementFails) (Transaction.mk true false) "s" true
      (World.start idleAuto) (fun _ => ⟨rfl, rfl⟩) (fun _ => rfl)).1,
    (execute_contract (refSession statementFails) (Transaction.mk true false) "s" true
      (World.start idleAuto) (fun _ => ⟨rfl, rfl⟩) (fun _ => rfl)).2.2.1⟩

/-- When the session reports no transaction and the session begin raises,
`execute` raises that error and issues nothing else, so the statement is not
run. -/
theorem execute_begin_raises {σ : Type} (S : Session σ) (g : Transaction) (sql : String)
    (c : Bool) (w : World σ) (e : SessionError)
    (hidle : S.isTransaction w.session = false) (hb : (S.begin w.session).1 = some e) :
    g.execute S sql c w = .raise e (w.after S .begin) ∧
    calls ((g.execute S sql c w).world.since w) = [.begin] := by
  have hres : g.execute S sql c w = .raise e (w.after S .begin) := by
    unfold Transaction.execute
    simp only [hidle, Bool.not_false, if_true]
    rw [invoke_some S .begin w e hb, andThen_raise]
  refine ⟨hres, ?_⟩
  rw [hres]
  simp only [Res.world]
  rw [since_append w _ [⟨.begin, w.session, some e⟩] (by
    have hb2 : (S.perform .begin w.session).1 = some e := hb
    simp [hb2])]
  rfl

/-! ## commit() and rollback() -/

/-- What `commit()` does on a lawful session, in whatever state the session is:
one session commit, issued in the state `commit()` found; the restoring
`setFeature` exactly when that commit returned and the flag is true; the
outcome of the session commit as its own outcome. -/
theorem commit_contract {σ : Type} (S : Session σ) (hl : S.Lawful) (g : Transaction)
    (w : World σ) (hfeat : g._autoCommit = true → S.hasFeature w.session "autoCommit" = true) :
    calls ((g.commit S w).world.since w) =
      .commit :: (if (S.commit w.session).1 = none ∧ g._autoCommit = true
        then [.setFeature "autoCommit" true] else []) ∧
    (∀ ev ∈ (g.commit S w).world.since w, ev.call = .commit →
      ev.pre = w.session ∧ ev.error = (S.commit w.session).1) ∧
    ((S.commit w.session).1 = none → ∃ w1, g.commit S w = .ok () w1 ∧
      (g._autoCommit = true → S.getFeature w1.session "autoCommit" = true)) ∧
    (∀ e, (S.commit w.session).1 = some e → ∃ w1, g.commit S w = .raise e w1) := by
  unfold Transaction.commit
  rcases hc : (S.commit w.session).1 with _ | e
  · rw [invoke_none S .commit _ (by simpa [Session.perform] using hc), andThen_ok]
    cases ha : g._autoCommit
    · have hs : ((g.logLine (.debug "Committing transaction.") w).after S .commit).since w =
          [⟨.commit, w.session, none⟩] :=
        since_append _ _ _ (by simp [Session.perform, hc])
      simp only [Bool.false_eq_true, if_false, Res.world, hs, and_false]
      refine ⟨rfl, ?_, fun _ => ⟨_, rfl, by simp⟩, by simp⟩
      intro ev hev _
      rw [List.mem_singleton.1 hev]
      exact ⟨rfl, rfl⟩
    · have hhas : S.hasFeature (S.commit w.session).2 "autoCommit" = true :=
        ((hl.commit_keeps w.session "autoCommit").1).trans (hfeat ha)
      obtain ⟨hsf, -, hget⟩ := hl.setFeature_sets _ "autoCommit" true hhas
      simp only [if_true]
      rw [invoke_none S (.setFeature "autoCommit" true) _
        (by simpa [Session.perform] using hsf)]
      have hs : (((g.logLine (.debug "Committing transaction.") w).after S .commit).after S
          (.setFeature "autoCommit" true)).since w =
          [⟨.commit, w.session, none⟩,
            ⟨.setFeature "autoCommit" true, (S.commit w.session).2, none⟩] :=
        since_append _ _ _ (by simp [Session.perform, hc, hsf])
      simp only [Res.world, hs, and_self, if_true]
      refine ⟨rfl, ?_, fun _ => ⟨_, rfl, fun _ => by simpa [Session.perform] using hget⟩,
        by simp⟩
      intro ev hev hcall
      simp only [List.mem_cons, List.mem_singleton, List.not_mem_nil, or_false] at hev
      rcases hev with rfl | rfl
      · exact ⟨rfl, rfl⟩
      · cases hcall
  · rw [invoke_some S .commit _ e (by simpa [Session.perform] using hc), andThen_raise]
    have hs : ((g.logLine (.debug "Committing transaction.") w).after S .commit).since w =
        [⟨.commit, w.session, some e⟩] :=
      since_append _ _ _ (by simp [Session.perform, hc])
    simp only [Res.world, hs]
    refine ⟨by simp [calls], ?_, by simp, ?_⟩
    · intro ev hev _
      rw [List.mem_singleton.1 hev]
      exact ⟨rfl, rfl⟩
    · intro e2 he2
      simp only [Option.some.injEq] at he2
      exact ⟨_, by rw [he2]⟩

/-- What `rollback()` does on a lawful session, in whatever state the session
is: the same as `commit()`, with the session rollback in place of the session
commit. -/
theorem rollback_contract {σ : Type} (S : Session σ) (hl : S.Lawful) (g : Transaction)
    (w : World σ) (hfeat : g._autoCommit = true → S.hasFeature w.session "autoCommit" = true) :
    calls ((g.rollback S w).world.since w) =
      .rollback :: (if (S.rollback w.session).1 = none ∧ g._autoCommit = true
        then [.setFeature "autoCommit" true] else []) ∧
    (∀ ev ∈ (g.rollback S w).world.since w, ev.call = .rollback →
      ev.pre = w.session ∧ ev.error = (S.rollback w.session).1) ∧
    ((S.rollback w.session).1 = none → ∃ w1, g.rollback S w = .ok () w1 ∧
      (g._autoCommit = true → S.getFeature w1.session "autoCommit" = true)) ∧
    (∀ e, (S.rollback w.session).1 = some e → ∃ w1, g.rollback S w = .raise e w1) := by
  unfold Transaction.rollback
  rcases hc : (S.rollback w.session).1 with _ | e
  · rw [invoke_none S .rollback _ (by simpa [Session.perform] using hc), andThen_ok]
    cases ha : g._autoCommit
    · have hs : ((g.logLine (.debug "Rolling back transaction.") w).after S .rollback).since w =
          [⟨.rollback, w.session, none⟩] :=
        since_append _ _ _ (by simp [Session.perform, hc])
      simp only [Bool.false_eq_true, if_false, Res.world, hs, and_false]
      refine ⟨rfl, ?_, fun _ => ⟨_, rfl, by simp⟩, by simp⟩
      intro ev hev _
      rw [List.mem_singleton.1 hev]
      exact ⟨rfl, rfl⟩
    · have hhas : S.hasFeature (S.rollback w.session).2 "autoCommit" = true :=
        ((hl.rollback_keeps w.session "autoCommit").1).trans (hfeat ha)
      obtain ⟨hsf, -, hget⟩ := hl.setFeature_sets _ "autoCommit" true hhas
      simp only [if_true]
      rw [invoke_none S (.setFeature "autoCommit" true) _
        (by simpa [Session.perform] using hsf)]
      have hs : (((g.logLine (.debug "Rolling back transaction.") w).after S .rollback).after S
          (.setFeature "autoCommit" true)).since w =
          [⟨.rollback, w.session, none⟩,
            ⟨.setFeature "autoCommit" true, (S.rollback w.session).2, none⟩] :=
        since_append _ _ _ (by simp [Session.perform, hc, hsf])
      simp only [Res.world, hs, and_self, if_true]
      refine ⟨rfl, ?_, fun _ => ⟨_, rfl, fun _ => by simpa [Session.perform] using hget⟩,
        by simp⟩
      intro ev hev hcall
      simp only [List.mem_cons, List.mem_singleton, List.not_mem_nil, or_false] at hev
      rcases hev with rfl | rfl
      · exact ⟨rfl, rfl⟩
      · cases hcall
  · rw [invoke_some S .rollback _ e (by simpa [Session.perform] using hc), andThen_raise]
    have hs : ((g.logLine (.debug "Rolling back transaction.") w).after S .rollback).since w =
        [⟨.rollback, w.session, some e⟩] :=
      since_append _ _ _ (by simp [Session.perform, hc])
    simp only [Res.world, hs]
    refine ⟨by simp [calls], ?_, by simp, ?_⟩
    · intro ev hev _
      rw [List.mem_singleton.1 hev]
      exact ⟨rfl, rfl⟩
    · intro e2 he2
      simp only [Option.some.injEq] at he2
      exact ⟨_, by rw [he2]⟩

@[simp] theorem exchanged_perform_commit {σ : Type} (S : Session σ) (st : σ) :
    S.exchanged.perform .commit st = S.perform .rollback st := rfl

@[simp] theorem exchanged_perform_setFeature {σ : Type} (S : Session σ) (name : String)
    (v : Bool) (st : σ) :
    S.exchanged.perform (.setFeature name v) st = S.perform (.setFeature name v) st := rfl

/-- The method `rollback()` is `commit()` with the session rollback in place of
the session commit: on the session with the two exchanged, `commit()` ends the
same way, leaves the session in the same state and issues the same calls, the
one exchanged call apart. -/
theorem rollback_is_commit_exchanged {σ : Type} (S : Session σ) (g : Transaction)
    (w : World σ) :
    (g.rollback S w).returned = (g.commit S.exchanged w).returned ∧
    (g.rollback S w).world.session = (g.commit S.exchanged w).world.session ∧
    calls ((g.rollback S w).world.since w) =
      (calls ((g.commit S.exchanged w).world.since w)).map Call.exchanged := by
  unfold Transaction.rollback Transaction.commit
  rcases hc : (S.perform .rollback w.session).1 with _ | e
  · rw [invoke_none S .rollback _ (by simpa using hc),
      invoke_none S.exchanged .commit _ (by simpa using hc), andThen_ok, andThen_ok]
    cases ha : g._autoCommit
    · simp only [Bool.false_eq_true, if_false, Res.returned, Res.world]
      refine ⟨trivial, by simp, ?_⟩
      rw [since_append w _ [⟨.rollback, w.session, none⟩] (by simp [hc]),
        since_append w _ [⟨.commit, w.session, none⟩] (by simp [hc])]
      rfl
    · simp only [if_true]
      rcases hsf : (S.perform (.setFeature "autoCommit" true)
        (S.perform .rollback w.session).2).1 with _ | e
      · rw [invoke_none S (.setFeature "autoCommit" true) _ (by simpa using hsf),
          invoke_none S.exchanged (.setFeature "autoCommit" true) _ (by simpa using hsf)]
        simp only [Res.returned, Res.world]
        refine ⟨trivial, by simp, ?_⟩
        rw [since_append w _ [⟨.rollback, w.session, none⟩,
            ⟨.setFeature "autoCommit" true, (S.perform .rollback w.session).2, none⟩]
            (by simp [hc, hsf]),
          since_append w _ [⟨.commit, w.session, none⟩,
            ⟨.setFeature "autoCommit" true, (S.perform .rollback w.session).2, none⟩]
            (by simp [hc, hsf])]
        rfl
      · rw [invoke_some S (.setFeature "autoCommit" true) _ e (by simpa using hsf),
          invoke_some S.exchanged (.setFeature "autoCommit" true) _ e (by simpa using hsf)]
        simp only [Res.returned, Res.world]
        refine ⟨trivial, by simp, ?_⟩
        rw [since_append w _ [⟨.rollback, w.session, none⟩,
            ⟨.setFeature "autoCommit" true, (S.perform .rollback w.session).2, some e⟩]
            (by simp [hc, hsf]),
          since_append w _ [⟨.commit, w.session, none⟩,
            ⟨.setFeature "autoCommit" true, (S.perform .rollback w.session).2, some e⟩]
            (by simp [hc, hsf])]
        rfl
  · rw [invoke_some S .rollback _ e (by simpa using hc),
      invoke_some S.exchanged .commit _ e (by simpa using hc), andThen_raise, andThen_raise]
    simp only [Res.returned, Res.world]
    refine ⟨trivial, by simp, ?_⟩
    rw [since_append w _ [⟨.rollback, w.session, some e⟩] (by simp [hc]),
      since_append w _ [⟨.commit, w.session, some e⟩] (by simp [hc])]
    rfl

/-- C12: `commit()` and `rollback()` act in whatever state the session is, with
no check for an active transaction.  On a lawful session (which has the
autoCommit feature when the flag is true) each issues exactly one session
commit, respectively rollback, in the state it found; it returns when that call
returns and raises the error that call raises; it issues the restoring
`setFeature("autoCommit", true)` exactly when that call returned and the flag
is true, and then auto-commit is on.  And `rollback()` is `commit()` with the
session rollback in place of the session commit. -/
theorem commit_and_rollback_contract {σ : Type} (S : Session σ) (hl : S.Lawful)
    (g : Transaction) (w : World σ)
    (hfeat : g._autoCommit = true → S.hasFeature w.session "autoCommit" = true) :
    (calls ((g.commit S w).world.since w) =
        .commit :: (if (S.commit w.session).1 = none ∧ g._autoCommit = true
          then [.setFeature "autoCommit" true] else []) ∧
      (∀ ev ∈ (g.commit S w).world.since w, ev.call = .commit →
        ev.pre = w.session ∧ ev.error = (S.commit w.session).1) ∧
      ((S.commit w.session).1 = none → ∃ w1, g.commit S w = .ok () w1 ∧
        (g._autoCommit = true → S.getFeature w1.session "autoCommit" = true)) ∧
      (∀ e, (S.commit w.session).1 = some e → ∃ w1, g.commit S w = .raise e w1)) ∧
    (calls ((g.rollback S w).world.since w) =
        .rollback :: (if (S.rollback w.session).1 = none ∧ g._autoCommit = true
          then [.setFeature "autoCommit" true] else []) ∧
      (∀ ev ∈ (g.rollback S w).world.since w, ev.call = .rollback →
        ev.pre = w.session ∧ ev.error = (S.rollback w.session).1) ∧
      ((S.rollback w.session).1 = none → ∃ w1, g.rollback S w = .ok () w1 ∧
        (g._autoCommit = true → S.getFeature w1.session "autoCommit" = true)) ∧
      (∀ e, (S.rollback w.session).1 = some e → ∃ w1, g.rollback S w = .raise e w1)) ∧
    ((g.rollback S w).returned = (g.commit S.exchanged w).returned ∧
      (g.rollback S w).world.session = (g.commit S.exchanged w).world.session ∧
      calls ((g.rollback S w).world.since w) =
        (calls ((g.commit S.exchanged w).world.since w)).map Call.exchanged) :=
  ⟨commit_contract S hl g w hfeat, rollback_contract S hl g w hfeat,
    rollback_is_commit_exchanged S g w⟩

/-- Witness for C12: `commit()` and `rollback()` by a guard with a true flag on
the reference session, with no transaction open. -/
theorem commit_and_rollback_contract_witness :
    ((refSession Faults.none).Lawful ∧
      ((Transaction.mk true true)._autoCommit = true →
        (refSession Faults.none).hasFeature (World.start idleAuto).session "autoCommit" =
          true)) ∧
    calls (((Transaction.mk true true).commit (refSession Faults.none)
        (World.start idleAuto)).world.since (World.start idleAuto)) = [.commit] ∧
    calls (((Transaction.mk true true).rollback (refSession Faults.none)
        (World.start idleAuto)).world.since (World.start idleAuto)) =
      [.rollback, .setFeature "autoCommit" true] :=
  ⟨⟨refSession_lawful _, fun _ => rfl⟩,
    (commit_and_rollback_contract (refSession Faults.none) (refSession_lawful _)
      (Transaction.mk true true) (World.start idleAuto) (fun _ => rfl)).1.1,
    (commit_and_rollback_contract (refSession Faults.none) (refSession_lawful _)
      (Transaction.mk true true) (World.start idleAuto) (fun _ => rfl)).2.1.1⟩

/-! ## begin() on a session with no transaction -/

/-- C13: on a lawful session that reports no transaction (and has the
autoCommit feature when the guard's flag is true), `begin()` issues, with a true
flag, `setFeature("autoCommit", false)` and then one session begin, in that
order, and with a false flag the session begin only.  With a true flag the
session begin finds auto-commit off.  `begin()` returns when the session begin
returns; when the session begin raises, `begin()` raises that error, and with a
true flag the session is left with auto-commit off: no restoring call is
issued. -/
theorem begin_disables_then_begins {σ : Type} (S : Session σ) (hl : S.Lawful)
    (g : Transaction) (w : World σ) (hidle : S.isTransaction w.session = false)
    (hfeat : g._autoCommit = true → S.hasFeature w.session "autoCommit" = true) :
    calls ((g.begin S w).world.since w) =
      (if g._autoCommit then [.setFeature "autoCommit" false, .begin] else [.begin]) ∧
    (∀ ev ∈ (g.begin S w).world.since w, ev.call = .setFeature "autoCommit" false →
      ev.pre = w.session ∧ ev.error = none) ∧
    (∀ ev ∈ (g.begin S w).world.since w, ev.call = .begin →
      ev.error = (S.begin ev.pre).1 ∧
      (g._autoCommit = true → S.getFeature ev.pre "autoCommit" = false) ∧
      (ev.error = none → ∃ w1, g.begin S w = .ok () w1) ∧
      (∀ e, ev.error = some e → ∃ w1, g.begin S w = .raise (.session e) w1 ∧
        (g._autoCommit = true → S.getFeature w1.session "autoCommit" = false))) := by
  unfold Transaction.begin
  simp only [hidle, Bool.not_false, if_true]
  cases ha : g._autoCommit
  · simp only [Bool.false_eq_true, if_false, andThen_ok]
    rcases hb : (S.perform .begin w.session).1 with _ | e
    · rw [invoke_none _ _ _ hb]
      have hs : (w.after S .begin).since w = [⟨.begin, w.session, none⟩] :=
        since_append _ _ _ (by simp [hb])
      simp only [Res.liftSession, Res.world, hs]
      refine ⟨rfl, by simp, ?_⟩
      intro ev hev _
      rw [List.mem_singleton.1 hev]
      exact ⟨hb.symm, by simp, fun _ => ⟨_, rfl⟩, by simp⟩
    · rw [invoke_some _ _ _ e hb]
      have hs : (w.after S .begin).since w = [⟨.begin, w.session, some e⟩] :=
        since_append _ _ _ (by simp [hb])
      simp only [Res.liftSession, Res.world, hs]
      refine ⟨rfl, by simp, ?_⟩
      intro ev hev _
      rw [List.mem_singleton.1 hev]
      refine ⟨hb.symm, by simp, by simp, ?_⟩
      intro e2 he2
      simp only [Option.some.injEq] at he2
      exact ⟨_, by rw [he2], by simp⟩
  · simp only [if_true]
    obtain ⟨hsf, -, hget⟩ := hl.setFeature_sets w.session "autoCommit" false (hfeat ha)
    rw [invoke_none S (.setFeature "autoCommit" false) w hsf, andThen_ok]
    have hkeep := (hl.begin_keeps (S.setFeature w.session "autoCommit" false).2 "autoCommit").2
    rcases hb : (S.perform .begin (w.after S (.setFeature "autoCommit" false)).session).1
      with _ | e
    · rw [invoke_none _ _ _ hb]
      have hs : ((w.after S (.setFeature "autoCommit" false)).after S .begin).since w =
          [⟨.setFeature "autoCommit" false, w.session, none⟩,
            ⟨.begin, (S.setFeature w.session "autoCommit" false).2, none⟩] :=
        since_append _ _ _ (by
          have hb2 : (S.begin (S.setFeature w.session "autoCommit" false).2).1 = _ := hb
          simp [hb2, Session.perform, hsf])
      simp only [Res.liftSession, Res.world, hs]
      refine ⟨rfl, ?_, ?_⟩
      · intro ev hev hcall
        simp only [List.mem_cons, List.mem_singleton, List.not_mem_nil, or_false] at hev
        rcases hev with rfl | rfl
        · exact ⟨rfl, rfl⟩
        · cases hcall
      · intro ev hev hcall
        simp only [List.mem_cons, List.mem_singleton, List.not_mem_nil, or_false] at hev
        rcases hev with rfl | rfl
        · cases hcall
        · exact ⟨hb.symm, fun _ => hget, fun _ => ⟨_, rfl⟩, by simp⟩
    · rw [invoke_some _ _ _ e hb]
      have hs : ((w.after S (.setFeature "autoCommit" false)).after S .begin).since w =
          [⟨.setFeature "autoCommit" false, w.session, none⟩,
            ⟨.begin, (S.setFeature w.session "autoCommit" false).2, some e⟩] :=
        since_append _ _ _ (by
          have hb2 : (S.begin (S.setFeature w.session "autoCommit" false).2).1 = _ := hb
          simp [hb2, Session.perform, hsf])
      simp only [Res.liftSession, Res.world, hs]
      refine ⟨rfl, ?_, ?_⟩
      · intro ev hev hcall
        simp only [List.mem_cons, List.mem_singleton, List.not_mem_nil, or_false] at hev
        rcases hev with rfl | rfl
        · exact ⟨rfl, rfl⟩
        · cases hcall
      · intro ev hev hcall
        simp only [List.mem_cons, List.mem_singleton, List.not_mem_nil, or_false] at hev
        rcases hev with rfl | rfl
        · cases hcall
        · refine ⟨hb.symm, fun _ => hget, by simp, ?_⟩
          intro e2 he2
          simp only [Option.some.injEq] at he2
          refine ⟨_, by rw [he2], fun _ => ?_⟩
          simpa [Session.perform, hget] using hkeep

/-- Witness for C13: `begin()` with a true flag on the reference session set up
to fail the session begin. -/
theorem begin_disables_then_begins_witness :
    ((refSession beginFails).Lawful ∧
      (refSession beginFails).isTransaction (World.start idleAuto).session = false ∧
      ((Transaction.mk true false)._autoCommit = true →
        (refSession beginFails).hasFeature (World.start idleAuto).session "autoCommit" = true)) ∧
    calls (((Transaction.mk true false).begin (refSession beginFails)
        (World.start idleAuto)).world.since (World.start idleAuto)) =
      [.setFeature "autoCommit" false, .begin] :=
  ⟨⟨refSession_lawful _, rfl, fun _ => rfl⟩,
    (begin_disables_then_begins (refSession beginFails) (refSession_lawful _)
      (Transaction.mk true false) (World.start idleAuto) rfl (fun _ => rfl)).1⟩

/-! ## Construction -/

/-- On a session that reports no transaction, `begin()` never raises the guard's
own InvalidAccessException. -/
theorem begin_idle_not_rejected {σ : Type} (S : Session σ) (g : Transaction) (w : World σ)
    (hidle : S.isTransaction w.session = false) (msg : String) (w1 : World σ) :
    g.begin S w ≠ .raise (.invalidAccess msg) w1 := by
  simp only [Transaction.begin, hidle, Bool.not_false, if_true]
  cases (if g._autoCommit then S.invoke (.setFeature "autoCommit" false) w
    else Res.ok () w).andThen fun _ w1 => S.invoke .begin w1 <;>
    simp [Res.liftSession]

/-- C14: a constructor that returns yields a guard whose flag is "the session
has the autoCommit feature and its value is true", read from the session as
the constructor found it.  The eager constructor ends as `begin()` of that guard
does, in the same world, returning when it returns and raising what it raises:
on a session with an active transaction it raises the guard's
InvalidAccessException and leaves the world as it was, and on any other
session it never raises that exception.  The deferred
constructor with `start = false` returns with the world as it was, and with
`start = true` it is the eager constructor without a logger. -/
theorem constructors_snapshot_and_begin {σ : Type} (S : Session σ) (pLogger : Bool)
    (w : World σ) :
    (∀ g w1, Transaction.create S pLogger w = .ok g w1 →
      g._autoCommit = (S.hasFeature w.session "autoCommit" &&
        S.getFeature w.session "autoCommit") ∧ g._pLogger = pLogger) ∧
    ((Transaction.create S pLogger w).world =
        ((Transaction.mk (S.hasFeature w.session "autoCommit" &&
          S.getFeature w.session "autoCommit") pLogger).begin S w).world ∧
      (Transaction.create S pLogger w).returned =
        ((Transaction.mk (S.hasFeature w.session "autoCommit" &&
          S.getFeature w.session "autoCommit") pLogger).begin S w).returned ∧
      ∀ e w1, Transaction.create S pLogger w = .raise e w1 ↔
        (Transaction.mk (S.hasFeature w.session "autoCommit" &&
          S.getFeature w.session "autoCommit") pLogger).begin S w = .raise e w1) ∧
    (S.isTransaction w.session = true →
      Transaction.create S pLogger w =
        .raise (.invalidAccess "Transaction in progress.") w) ∧
    (S.isTransaction w.session = false →
      ∀ msg w1, Transaction.create S pLogger w ≠ .raise (.invalidAccess msg) w1) ∧
    Transaction.createDeferred S false w =
      .ok (Transaction.mk (S.hasFeature w.session "autoCommit" &&
        S.getFeature w.session "autoCommit") false) w ∧
    Transaction.createDeferred S true w = Transaction.create S false w := by
  have hsnap : Transaction.snapshot S w.session =
      (S.hasFeature w.session "autoCommit" && S.getFeature w.session "autoCommit") := by
    unfold Transaction.snapshot
    cases S.hasFeature w.session "autoCommit" <;> simp
  refine ⟨?_, ⟨?_, ?_, ?_⟩, ?_, ?_, ?_, ?_⟩
  · intro g w1 h
    simp only [Transaction.create, hsnap] at h
    generalize Transaction.begin S _ w = r at h
    cases r with
    | ok a w2 =>
      simp only [andThen_ok, Res.ok.injEq] at h
      rw [← h.1]
      exact ⟨rfl, rfl⟩
    | raise e w2 => cases h
  · simp only [Transaction.create, hsnap]
    generalize Transaction.begin S _ w = r
    cases r <;> rfl
  · simp only [Transaction.create, hsnap]
    generalize Transaction.begin S _ w = r
    cases r <;> rfl
  · intro e w1
    simp only [Transaction.create, hsnap]
    generalize Transaction.begin S _ w = r
    cases r <;> simp
  · intro h
    simp [Transaction.create, Transaction.begin, h]
  · intro h msg w1 hcreate
    simp only [Transaction.create] at hcreate
    have hb := begin_idle_not_rejected S
      { _autoCommit := Transaction.snapshot S w.session, _pLogger := pLogger } w h msg w1
    generalize Transaction.begin S _ w = r at hcreate hb
    cases r with
    | ok a w2 => cases hcreate
    | raise e w2 =>
      simp only [andThen_raise, Res.raise.injEq] at hcreate
      exact hb (by rw [hcreate.1, hcreate.2])
  · simp [Transaction.createDeferred, hsnap]
  · simp [Transaction.createDeferred, Transaction.create]

/-- Witness for C14: the eager constructor on the reference session with a
transaction open. -/
theorem constructors_snapshot_and_begin_witness :
    Transaction.create (refSession Faults.none) true (World.start activeAuto) =
      .raise (.invalidAccess "Transaction in progress.") (World.start activeAuto) :=
  (constructors_snapshot_and_begin (refSession Faults.none) true
    (World.start activeAuto)).2.2.1 rfl

/-! ## A guard whose flag is false -/

theorem quietly_refl {σ : Type} (S : Session σ) (w : World σ) : World.ReachedQuietly S w w :=
  ⟨⟨[], by simp, by simp⟩, fun _ _ h => h⟩

theorem quietly_trans {σ : Type} (S : Session σ) (w w1 w2 : World σ)
    (h1 : World.ReachedQuietly S w w1) (h2 : World.ReachedQuietly S w1 w2) :
    World.ReachedQuietly S w w2 := by
  obtain ⟨⟨evs1, htr1, hq1⟩, hp1⟩ := h1
  obtain ⟨⟨evs2, htr2, hq2⟩, hp2⟩ := h2
  refine ⟨⟨evs1 ++ evs2, by rw [htr2, htr1, List.append_assoc], ?_⟩,
    fun P hP h => hp2 P hP (hp1 P hP h)⟩
  intro ev hev
  rcases List.mem_append.1 hev with h | h
  · exact hq1 ev h
  · exact hq2 ev h

theorem quietly_logLine {σ : Type} (S : Session σ) (g : Transaction) (entry : LogEntry)
    (w : World σ) : World.ReachedQuietly S w (g.logLine entry w) :=
  ⟨⟨[], by simp, by simp⟩, fun _ _ h => by simpa using h⟩

theorem quietly_invoke {σ : Type} (S : Session σ) (c : Call) (hc : c.isSetFeature = false)
    (w : World σ) : World.ReachedQuietly S w (S.invoke c w).world := by
  have hw : (S.invoke c w).world = w.after S c := by
    unfold Session.invoke
    cases (S.perform c w.session).1 <;> rfl
  rw [hw]
  exact ⟨⟨[_], rfl, by simpa using hc⟩, fun P hP h => hP c w.session hc h⟩

theorem quietly_andThen {σ α β : Type} (S : Session σ) (w : World σ)
    (r : Res SessionError α (World σ)) (f : α → World σ → Res SessionError β (World σ))
    (h1 : World.ReachedQuietly S w r.world)
    (h2 : ∀ a w1, World.ReachedQuietly S w1 (f a w1).world) :
    World.ReachedQuietly S w (r.andThen f).world := by
  cases r with
  | ok a w1 => exact quietly_trans S w w1 _ h1 (h2 a w1)
  | raise e w1 => exact h1

theorem commit_quietly {σ : Type} (S : Session σ) (g : Transaction)
    (hflag : g._autoCommit = false) (w : World σ) :
    World.ReachedQuietly S w (g.commit S w).world := by
  unfold Transaction.commit
  refine quietly_andThen S w _ _ (quietly_trans S w _ _ (quietly_logLine S g _ w)
    (quietly_invoke S .commit rfl _)) ?_
  intro _ w1
  simp only [hflag, Bool.false_eq_true, if_false]
  exact quietly_refl S w1

theorem rollback_quietly {σ : Type} (S : Session σ) (g : Transaction)
    (hflag : g._autoCommit = false) (w : World σ) :
    World.ReachedQuietly S w (g.rollback S w).world := by
  unfold Transaction.rollback
  refine quietly_andThen S w _ _ (quietly_trans S w _ _ (quietly_logLine S g _ w)
    (quietly_invoke S .rollback rfl _)) ?_
  intro _ w1
  simp only [hflag, Bool.false_eq_true, if_false]
  exact quietly_refl S w1

theorem begin_quietly {σ : Type} (S : Session σ) (g : Transaction)
    (hflag : g._autoCommit = false) (w : World σ) :
    World.ReachedQuietly S w (g.begin S w).world := by
  unfold Transaction.begin
  by_cases ht : S.isTransaction w.session = true
  · simp only [ht, Bool.not_true, Bool.false_eq_true, if_false]
    exact quietly_refl S w
  · have hf : S.isTransaction w.session = false := by simpa using ht
    simp only [hf, Bool.not_false, if_true, hflag, Bool.false_eq_true, if_false, andThen_ok,
      liftSession_world]
    exact quietly_invoke S .begin rfl w

theorem execute_quietly {σ : Type} (S : Session σ) (g : Transaction)
    (hflag : g._autoCommit = false) (sql : String) (c : Bool) (w : World σ) :
    World.ReachedQuietly S w (g.execute S sql c w).world := by
  unfold Transaction.execute
  refine quietly_andThen S w _ _ ?_ ?_
  · by_cases ht : S.isTransaction w.session = true
    · simp only [ht, Bool.not_true, Bool.false_eq_true, if_false]
      exact quietly_refl S w
    · have hf : S.isTransaction w.session = false := by simpa using ht
      simp only [hf, Bool.not_false, if_true]
      exact quietly_invoke S .begin rfl w
  · intro _ w1
    refine quietly_andThen S w1 _ _ (quietly_invoke S (.statement sql) rfl w1) ?_
    intro _ w2
    cases c
    · exact quietly_refl S w2
    · exact commit_quietly S g hflag w2

theorem executeLoop_quietly {σ : Type} (S : Session σ) (g : Transaction)
    (hflag : g._autoCommit = false) (sql : List String) :
    ∀ w : World σ, World.ReachedQuietly S w (g.executeLoop S sql w).world := by
  induction sql with
  | nil =>
    intro w
    exact quietly_refl S w
  | cons x rest ih =>
    intro w
    rw [Transaction.executeLoop]
    exact quietly_andThen S w _ _ (execute_quietly S g hflag x _ w) (fun _ w1 => ih w1)

theorem executeInfo_quietly {σ : Type} (S : Session σ) (g : Transaction)
    (hflag : g._autoCommit = false) (sql : List String) (info : Option String) (w : World σ) :
    World.ReachedQuietly S w (g.executeInfo S sql info w).1.world := by
  have hloop := executeLoop_quietly S g hflag sql w
  unfold Transaction.executeInfo
  generalize g.executeLoop S sql w = r at hloop
  cases r with
  | ok a w1 => exact hloop
  | raise e w1 =>
    cases e with
    | foreign => exact hloop
    | poco text =>
      have hrb := quietly_trans S w1 _ _ (quietly_logLine S g (.exception text) w1)
        (rollback_quietly S g hflag (g.logLine (.exception text) w1))
      simp only
      generalize g.rollback S (g.logLine (.exception text) w1) = r2 at hrb
      cases r2 with
      | ok a2 w2 => exact quietly_trans S w w1 w2 hloop hrb
      | raise e2 w2 => exact quietly_trans S w w1 w2 hloop hrb

theorem destroy_quietly {σ : Type} (S : Session σ) (g : Transaction) (w : World σ) :
    World.ReachedQuietly S w (g.destroy S w).world := by
  unfold Transaction.destroy
  by_cases ht : S.isTransaction w.session = true
  · simp only [ht, if_true]
    have h := quietly_trans S w _ _ (quietly_logLine S g (.debug "Rolling back transaction.") w)
      (quietly_invoke S .rollback rfl (g.logLine (.debug "Rolling back transaction.") w))
    generalize S.invoke .rollback (g.logLine (.debug "Rolling back transaction.") w) = r at h
    cases r with
    | ok a w1 => exact h
    | raise e w1 =>
      cases e with
      | poco text => exact quietly_trans S w w1 _ h (quietly_logLine S g _ w1)
      | foreign => exact quietly_trans S w w1 _ h (quietly_logLine S g _ w1)
  · simp only [ht, Bool.false_eq_true, if_false]
    exact quietly_refl S w

theorem apply_quietly {σ : Type} (S : Session σ) (g : Transaction)
    (hflag : g._autoCommit = false) (op : Op) (hop : op.isConstructor = false) (w : World σ) :
    (op.apply S g w).1 = g ∧ World.ReachedQuietly S w (op.apply S g w).2 := by
  cases op with
  | create pLogger => cases hop
  | createDeferred start => cases hop
  | begin => exact ⟨rfl, begin_quietly S g hflag w⟩
  | execute sql doCommit => exact ⟨rfl, execute_quietly S g hflag sql doCommit w⟩
  | executeList sql => exact ⟨rfl, executeInfo_quietly S g hflag sql none w⟩
  | executeInfo sql info => exact ⟨rfl, executeInfo_quietly S g hflag sql info w⟩
  | commit => exact ⟨rfl, commit_quietly S g hflag w⟩
  | rollback => exact ⟨rfl, rollback_quietly S g hflag w⟩
  | destroy => exact ⟨rfl, destroy_quietly S g w⟩

theorem runOps_quietly {σ : Type} (S : Session σ) (g : Transaction)
    (hflag : g._autoCommit = false) (ops : List Op) :
    (∀ op ∈ ops, op.isConstructor = false) →
    ∀ w : World σ, (runOps S ops g w).1 = g ∧ World.ReachedQuietly S w (runOps S ops g w).2 := by
  induction ops with
  | nil =>
    intro _ w
    exact ⟨rfl, quietly_refl S w⟩
  | cons op ops ih =>
    intro hops w
    obtain ⟨hg, hq⟩ := apply_quietly S g hflag op (hops op (List.mem_cons_self _ _)) w
    have hrest := ih (fun o ho => hops o (List.mem_cons_of_mem _ ho)) (op.apply S g w).2
    rw [runOps, hg]
    exact ⟨hrest.1, quietly_trans S w _ _ hq hrest.2⟩

/-- C15: a guard whose flag is false, put through any sequence of the
operations begin, execute of one statement, execute of a list (with or without
a slot), commit, rollback and destroy, stays the same guard and never calls
`setFeature`; so, on a session whose other calls leave the feature store
alone, every feature is afterwards what it was. -/
theorem flagless_guard_never_sets_feature {σ : Type} (S : Session σ) (g : Transaction)
    (hflag : g._autoCommit = false) (ops : List Op)
    (hops : ∀ op ∈ ops, op.isConstructor = false) (w : World σ) :
    (runOps S ops g w).1 = g ∧
    (∀ ev ∈ (runOps S ops g w).2.since w, ev.call.isSetFeature = false) ∧
    ((∀ c st name, c.isSetFeature = false →
        S.hasFeature (S.perform c st).2 name = S.hasFeature st name ∧
        S.getFeature (S.perform c st).2 name = S.getFeature st name) →
      ∀ name, S.hasFeature (runOps S ops g w).2.session name = S.hasFeature w.session name ∧
        S.getFeature (runOps S ops g w).2.session name = S.getFeature w.session name) := by
  obtain ⟨hg, ⟨evs, htr, hq⟩, hp⟩ := runOps_quietly S g hflag ops hops w
  refine ⟨hg, by rw [since_append _ _ _ htr]; exact hq, ?_⟩
  intro hkeep
  refine hp (fun st => ∀ name, S.hasFeature st name = S.hasFeature w.session name ∧
    S.getFeature st name = S.getFeature w.session name) ?_ (fun _ => ⟨rfl, rfl⟩)
  intro c st hc h name
  exact ⟨((hkeep c st name hc).1).trans (h name).1, ((hkeep c st name hc).2).trans (h name).2⟩

/-- Witness for C15: a guard with a false flag put through every operation but
the constructors, on the reference session without the autoCommit feature. -/
theorem flagless_guard_never_sets_feature_witness :
    ((Transaction.mk false true)._autoCommit = false ∧
      ∀ op ∈ [Op.begin, .execute "s0" false, .executeList ["s1", "s2"],
        .executeInfo ["s3"] (some ""), .commit, .begin, .rollback, .execute "s4" true,
        .begin, .destroy], op.isConstructor = false) ∧
    ∀ ev ∈ (runOps (refSession Faults.none)
        [Op.begin, .execute "s0" false, .executeList ["s1", "s2"],
          .executeInfo ["s3"] (some ""), .commit, .begin, .rollback, .execute "s4" true,
          .begin, .destroy]
        (Transaction.mk false true) (World.start idlePlain)).2.since (World.start idlePlain),
      ev.call.isSetFeature = false :=
  ⟨⟨rfl, by decide⟩,
    (flagless_guard_never_sets_feature (refSession Faults.none) (Transaction.mk false true) rfl
      [Op.begin, .execute "s0" false, .executeList ["s1", "s2"],
        .executeInfo ["s3"] (some ""), .commit, .begin, .rollback, .execute "s4" true,
        .begin, .destroy] (by decide) (World.start idlePlain)).2.1⟩

/-! ## The batch: the final commit fails -/

/-- A statement the session always runs, executed without commit, in detail:
no call raised and the feature store was not called. -/
theorem execute_statement_quiet {σ : Type} (S : Session σ) (g : Transaction) (sql : String)
    (w : World σ) (hbegin : ∀ st, S.isTransaction st = false → (S.begin st).1 = none)
    (hrun : ∀ st, (S.run st sql).1 = none) :
    ∃ w1 evs, g.execute S sql false w = .ok () w1 ∧ w1.trace = w.trace ++ evs ∧
      work evs = [.statement sql] ∧
      ∀ ev ∈ evs, ev.call.isSetFeature = false ∧ ev.error = none := by
  unfold Transaction.execute
  by_cases ht : S.isTransaction w.session = true
  · simp only [ht, Bool.not_true, Bool.false_eq_true, if_false, andThen_ok]
    rw [invoke_none S (.statement sql) w (hrun _), andThen_ok]
    exact ⟨_, [⟨.statement sql, w.session, (S.perform (.statement sql) w.session).1⟩], rfl,
      rfl, by simp [work, Call.isWork],
      by simpa [Call.isSetFeature, Session.perform] using hrun w.session⟩
  · have hf : S.isTransaction w.session = false := by simpa using ht
    simp only [hf, Bool.not_false, if_true]
    rw [invoke_none S .begin w (hbegin _ hf), andThen_ok,
      invoke_none S (.statement sql) _ (hrun _), andThen_ok]
    refine ⟨_, [⟨.begin, w.session, (S.perform .begin w.session).1⟩,
      ⟨.statement sql, (S.perform .begin w.session).2,
        (S.perform (.statement sql) (S.perform .begin w.session).2).1⟩], rfl, by simp,
      by simp [work, Call.isWork], ?_⟩
    intro ev hev
    simp only [List.mem_cons, List.mem_singleton, List.not_mem_nil, or_false] at hev
    rcases hev with rfl | rfl
    · exact ⟨rfl, hbegin _ hf⟩
    · exact ⟨rfl, hrun _⟩

/-- The last statement of a batch on a session whose commit always fails: the
statement runs, the commit raises, and `execute` raises the commit's error
without calling the feature store. -/
theorem execute_commit_raises {σ : Type} (S : Session σ) (g : Transaction) (sql : String)
    (w : World σ) (e : SessionError)
    (hbegin : ∀ st, S.isTransaction st = false → (S.begin st).1 = none)
    (hrun : ∀ st, (S.run st sql).1 = none) (hcommit : ∀ st, (S.commit st).1 = some e) :
    ∃ w1 evs, g.execute S sql true w = .raise e w1 ∧ w1.trace = w.trace ++ evs ∧
      work evs = [.statement sql, .commit] ∧
      ∀ ev ∈ evs, ev.call.isSetFeature = false ∧ (ev.error ≠ none → ev.call = .commit) := by
  unfold Transaction.execute Transaction.commit
  by_cases ht : S.isTransaction w.session = true
  · simp only [ht, Bool.not_true, Bool.false_eq_true, if_false, andThen_ok, if_true]
    rw [invoke_none S (.statement sql) w (hrun _), andThen_ok,
      invoke_some S .commit _ e (hcommit _), andThen_raise]
    refine ⟨_, [⟨.statement sql, w.session, (S.perform (.statement sql) w.session).1⟩,
      ⟨.commit, (S.perform (.statement sql) w.session).2,
        (S.perform .commit (S.perform (.statement sql) w.session).2).1⟩], rfl, by simp,
      by simp [work, Call.isWork], ?_⟩
    intro ev hev
    simp only [List.mem_cons, List.mem_singleton, List.not_mem_nil, or_false] at hev
    rcases hev with rfl | rfl
    · exact ⟨rfl, fun h => absurd (hrun w.session) h⟩
    · exact ⟨rfl, fun _ => rfl⟩
  · have hf : S.isTransaction w.session = false := by simpa using ht
    simp only [hf, Bool.not_false, if_true]
    rw [invoke_none S .begin w (hbegin _ hf), andThen_ok,
      invoke_none S (.statement sql) _ (hrun _), andThen_ok,
      invoke_some S .commit _ e (hcommit _), andThen_raise]
    refine ⟨_, [⟨.begin, w.session, (S.perform .begin w.session).1⟩,
      ⟨.statement sql, (S.perform .begin w.session).2,
        (S.perform (.statement sql) (S.perform .begin w.session).2).1⟩,
      ⟨.commit, (S.perform (.statement sql) (S.perform .begin w.session).2).2,
        (S.perform .commit
          (S.perform (.statement sql) (S.perform .begin w.session).2).2).1⟩], rfl, by simp,
      by simp [work, Call.isWork], ?_⟩
    intro ev hev
    simp only [List.mem_cons, List.mem_singleton, List.not_mem_nil, or_false] at hev
    rcases hev with rfl | rfl | rfl
    · exact ⟨rfl, fun h => absurd (hbegin _ hf) h⟩
    · exact ⟨rfl, fun h => absurd (hrun _) h⟩
    · exact ⟨rfl, fun _ => rfl⟩

/-- The loop on a non-empty list whose statements all run, on a session whose
commit always fails: every statement runs, the commit after the last one
raises, and the loop raises the commit's error. -/
theorem executeLoop_commit_raises {σ : Type} (S : Session σ) (g : Transaction)
    (e : SessionError) (hbegin : ∀ st, S.isTransaction st = false → (S.begin st).1 = none)
    (hcommit : ∀ st, (S.commit st).1 = some e) (sql : List String) :
    sql ≠ [] → (∀ x ∈ sql, ∀ st, (S.run st x).1 = none) →
    ∀ w : World σ, ∃ w1 evs, g.executeLoop S sql w = .raise e w1 ∧
      w1.trace = w.trace ++ evs ∧ work evs = sql.map Call.statement ++ [.commit] ∧
      ∀ ev ∈ evs, ev.call.isSetFeature = false ∧ (ev.error ≠ none → ev.call = .commit) := by
  induction sql with
  | nil =>
    intro h
    exact absurd rfl h
  | cons x rest ih =>
    intro _ hrun w
    cases rest with
    | nil =>
      obtain ⟨w1, evs, hres, htr, hwork, hq⟩ :=
        execute_commit_raises S g x w e hbegin (hrun x (List.mem_cons_self _ _)) hcommit
      exact ⟨w1, evs, by simp [Transaction.executeLoop, hres], htr, by simpa using hwork, hq⟩
    | cons y rest =>
      obtain ⟨w1, evs1, hres1, htr1, hwork1, hq1⟩ :=
        execute_statement_quiet S g x w hbegin (hrun x (List.mem_cons_self _ _))
      obtain ⟨w2, evs2, hres2, htr2, hwork2, hq2⟩ :=
        ih (by simp) (fun z hz => hrun z (List.mem_cons_of_mem _ hz)) w1
      refine ⟨w2, evs1 ++ evs2, ?_, ?_, ?_, ?_⟩
      · rw [Transaction.executeLoop]
        simp only [List.isEmpty_cons, hres1, andThen_ok, hres2]
      · rw [htr2, htr1, List.append_assoc]
      · rw [work_append, hwork1, hwork2]
        simp
      · intro ev hev
        rcases List.mem_append.1 hev with h | h
        · exact ⟨(hq1 ev h).1, fun hne => absurd (hq1 ev h).2 hne⟩
        · exact hq2 ev h

/-- On a session whose rollback and auto-commit restore always return,
`rollback()` returns, having issued the rollback and, with a true flag, the
restoring `setFeature` after it. -/
theorem rollback_returns_calls {σ : Type} (S : Session σ) (g : Transaction) (w : World σ)
    (hrb : ∀ st, (S.rollback st).1 = none)
    (hset : g._autoCommit = true → ∀ st, (S.setFeature st "autoCommit" true).1 = none) :
    ∃ w1 evs, g.rollback S w = .ok () w1 ∧ w1.trace = w.trace ++ evs ∧
      calls evs = .rollback :: (if g._autoCommit then [.setFeature "autoCommit" true] else []) ∧
      ∀ ev ∈ evs, ev.error = none := by
  unfold Transaction.rollback
  rw [invoke_none S .rollback _ (hrb _), andThen_ok]
  cases ha : g._autoCommit
  · refine ⟨_, [⟨.rollback, w.session, (S.perform .rollback w.session).1⟩], rfl, by simp,
      by simp, ?_⟩
    intro ev hev
    rw [List.mem_singleton.1 hev]
    exact hrb _
  · simp only [if_true]
    rw [invoke_none S (.setFeature "autoCommit" true) _ (hset ha _)]
    refine ⟨_, [⟨.rollback, w.session, (S.perform .rollback w.session).1⟩,
      ⟨.setFeature "autoCommit" true, (S.perform .rollback w.session).2,
        (S.perform (.setFeature "autoCommit" true) (S.perform .rollback w.session).2).1⟩],
      rfl, by simp, by simp, ?_⟩
    intro ev hev
    simp only [List.mem_cons, List.mem_singleton, List.not_mem_nil, or_false] at hev
    rcases hev with rfl | rfl
    · exact hrb _
    · exact hset ha _

/-- C16: on a session whose commit fails with a `Poco::Exception` of text
`text` (every statement of the non-empty list, a begin issued with no
transaction open, the rollback and the auto-commit restore return),
`execute(list, info)` handles the failed commit as it handles a failed
statement: it returns false; the slot, when given, holds exactly `text`; the
calls acting on the data are the statements, the commit and then one rollback;
after the rollback the restoring `setFeature` is issued exactly when the flag
is true, and it is the only call to the feature store; and the commit is the
only call that raised. -/
theorem executeInfo_commit_failure {σ : Type} (S : Session σ) (g : Transaction)
    (sql : List String) (info : Option String) (w : World σ) (text : String)
    (hne : sql ≠ [])
    (hbegin : ∀ st, S.isTransaction st = false → (S.begin st).1 = none)
    (hrun : ∀ x ∈ sql, ∀ st, (S.run st x).1 = none)
    (hcommit : ∀ st, (S.commit st).1 = some (.poco text))
    (hrb : ∀ st, (S.rollback st).1 = none)
    (hset : g._autoCommit = true → ∀ st, (S.setFeature st "autoCommit" true).1 = none) :
    ∃ w1, g.executeInfo S sql info w = (.ok false w1, info.map fun _ => text) ∧
      work (w1.since w) = sql.map Call.statement ++ [.commit, .rollback] ∧
      (∃ front, calls (w1.since w) = front ++ .rollback ::
          (if g._autoCommit then [.setFeature "autoCommit" true] else []) ∧
        ∀ c ∈ front, c.isSetFeature = false) ∧
      (∀ ev ∈ w1.since w, ev.error ≠ none → ev.call = .commit) := by
  obtain ⟨w1, evs1, hres1, htr1, hwork1, hq1⟩ :=
    executeLoop_commit_raises S g (.poco text) hbegin hcommit sql hne hrun w
  obtain ⟨w2, evs2, hres2, htr2, hcalls2, hok2⟩ :=
    rollback_returns_calls S g (g.logLine (.exception text) w1) hrb hset
  have htr : w2.trace = w.trace ++ (evs1 ++ evs2) := by
    rw [htr2, logLine_trace, htr1, List.append_assoc]
  refine ⟨w2, ?_, ?_, ?_, ?_⟩
  · simp only [Transaction.executeInfo, hres1, hres2]
  · rw [since_append w w2 _ htr, work_append, hwork1]
    have : work evs2 = [.rollback] := by
      simp only [work, hcalls2]
      cases g._autoCommit <;> simp [Call.isWork]
    rw [this]
    simp
  · refine ⟨calls evs1, ?_, ?_⟩
    · rw [since_append w w2 _ htr]
      simp only [calls, List.map_append] at hcalls2 ⊢
      rw [hcalls2]
    · intro c hc
      obtain ⟨ev, hev, rfl⟩ := (mem_calls evs1 c).1 hc
      exact (hq1 ev hev).1
  · rw [since_append w w2 _ htr]
    intro ev hev hne2
    rcases List.mem_append.1 hev with h | h
    · exact (hq1 ev h).2 hne2
    · exact absurd (hok2 ev h) hne2

/-- Witness for C16: the batch `[s1, s2]` by a guard with a true flag on the
reference session set up to fail the commit, with a slot given. -/
theorem executeInfo_commit_failure_witness :
    ∃ w1, (Transaction.mk true false).executeInfo (refSession commitFails) ["s1", "s2"]
        (some "") (World.start idleAuto) = (.ok false w1, some "disk full") ∧
      work (w1.since (World.start idleAuto)) =
        [.statement "s1", .statement "s2", .commit, .rollback] ∧
      (∃ front, calls (w1.since (World.start idleAuto)) =
          front ++ [.rollback, .setFeature "autoCommit" true] ∧
        ∀ c ∈ front, c.isSetFeature = false) ∧
      (∀ ev ∈ w1.since (World.start idleAuto), ev.error ≠ none → ev.call = .commit) :=
  executeInfo_commit_failure (refSession commitFails) (Transaction.mk true false)
    ["s1", "s2"] (some "") (World.start idleAuto) "disk full" (by decide)
    (fun st h => by
      have h1 : st.active = false := h
      simp [refSession, commitFails, h1])
    (fun _ _ _ => rfl) (fun _ => rfl) (fun _ => rfl) (fun _ _ => rfl)

/-! ## The two batch overloads -/

/-- C17: for every session, guard, list and slot, `execute(list, info)` ends as
`execute(list)` does: the same boolean or the same error, in the same world (the
same session state, the same calls recorded, the same log); and when
`execute(list, info)` returns true the slot holds what it held before. -/
theorem executeInfo_agrees_with_executeList {σ : Type} (S : Session σ) (g : Transaction)
    (sql : List String) (info : Option String) (w : World σ) :
    (g.executeInfo S sql info w).1 = g.executeList S sql w ∧
    calls ((g.executeInfo S sql info w).1.world.since w) =
      calls ((g.executeList S sql w).world.since w) ∧
    (∀ w1, (g.executeInfo S sql info w).1 = .ok true w1 →
      (g.executeInfo S sql info w).2 = info) := by
  have h1 : (g.executeInfo S sql info w).1 = g.executeList S sql w := by
    unfold Transaction.executeList Transaction.executeInfo
    rcases g.executeLoop S sql w with ⟨a, w1⟩ | ⟨e, w1⟩
    · rfl
    · cases e with
      | foreign => rfl
      | poco text =>
        simp only
        rcases g.rollback S (g.logLine (.exception text) w1) with ⟨a, w2⟩ | ⟨e2, w2⟩ <;> rfl
  refine ⟨h1, by rw [h1], ?_⟩
  intro w2
  unfold Transaction.executeInfo
  rcases g.executeLoop S sql w with ⟨a, w1⟩ | ⟨e, w1⟩
  · intro _
    rfl
  · cases e with
    | foreign =>
      intro h
      cases h
    | poco text =>
      simp only
      rcases g.rollback S (g.logLine (.exception text) w1) with ⟨a, w3⟩ | ⟨e2, w3⟩ <;>
        intro h <;> cases h

/-! ## The batch: the first statement that fails -/

end Poco.Data
